import Mathlib

/-!
Verification of the Sudomoji 6×6 sudoku core (src/shared/utils/sudoku.ts,
candidate-calculator.ts, hint-engine.ts, solving-techniques.ts,
move-history.ts) against its natural-language specification.

Grids are embedded as total functions `Fin 6 → Fin 6 → Option Nat`: the
TypeScript `SudokuGrid` is a 6×6 array of `number | null`, and every claim
under consideration concerns well-formed 6×6 grids, so the dimension guards
of the source (which can only fail on ragged arrays) always pass here and
are noted where they occur in the source.  A cell value `null` is `none`.

Mutation in the source is always either (a) on a local copy (`grid.map(r =>
[...r])`), embedded by value, or (b) observable aliasing relevant to the
frame claims, embedded via a small explicit heap of grid values near the end
of the file.
-/

/-- Cells hold `number | null`; numbers are naturals here (the source only
ever stores integers 1..6, but corrupted grids may hold other numbers). -/
abbrev Cell := Option Nat

/-- A 6×6 grid, row index first (src/shared/types/sudoku.ts: SudokuGrid). -/
abbrev Grid := Fin 6 → Fin 6 → Cell

/-- Functional update of one cell; stands for `grid[r][c] = v`. -/
def setCell (g : Grid) (r c : Fin 6) (v : Cell) : Grid :=
  fun r' c' => if r' = r ∧ c' = c then v else g r' c'

/-- The empty grid (`Array(6).fill(null).map(() => Array(6).fill(null))`). -/
def emptyGrid : Grid := fun _ _ => none

/-- All 36 cell coordinates in row-major order, the scan order used by every
loop `for (row...) for (col...)` in the source. -/
def allCells : List (Fin 6 × Fin 6) :=
  (List.finRange 6).flatMap (fun r => (List.finRange 6).map (fun c => (r, c)))

/-- Row `r` as the list of its 6 cells (`grid[row]`). -/
def rowCells (g : Grid) (r : Fin 6) : List Cell :=
  (List.finRange 6).map (fun c => g r c)

/-- Column `c` as the list of its 6 cells (`grid.map(row => row[col])`). -/
def colCells (g : Grid) (c : Fin 6) : List Cell :=
  (List.finRange 6).map (fun r => g r c)

/-- Index of the 3×2 box containing a cell: `boxRow = floor(row / BOX_HEIGHT)`,
`boxCol = floor(col / BOX_WIDTH)` with BOX_HEIGHT = 2, BOX_WIDTH = 3. -/
def boxIdx (r c : Fin 6) : Fin 3 × Fin 2 :=
  (⟨r.val / 2, by omega⟩, ⟨c.val / 3, by omega⟩)

/-- The 6 cells of box `(boxRow, boxCol)` in the reading order of
`SudokuValidator.getBox` (sudoku.ts lines 80-98): rows `2*boxRow ..
2*boxRow+1`, within each row columns `3*boxCol .. 3*boxCol+2`. -/
def boxCells (g : Grid) (b : Fin 3 × Fin 2) : List Cell :=
  (List.finRange 2).flatMap (fun i =>
    (List.finRange 3).map (fun j =>
      g ⟨2 * b.1.val + i.val, by omega⟩ ⟨3 * b.2.val + j.val, by omega⟩))

/-- SudokuValidator.isValidUnit (sudoku.ts lines 75-78): the non-null values
of a unit are pairwise distinct (`new Set(values).size === values.length`). -/
def isValidUnit (u : List Cell) : Bool := decide (u.filterMap id).Nodup

/-- SudokuValidator.isValidGrid (sudoku.ts lines 4-34).  The 6×6 dimension
check of lines 5-8 always passes for `Grid` and is omitted; then every row,
every column and every 3×2 box must be a valid unit. -/
def isValidGrid (g : Grid) : Bool :=
  ((List.finRange 6).all fun r => isValidUnit (rowCells g r)) &&
  ((List.finRange 6).all fun c => isValidUnit (colCells g c)) &&
  ((List.finRange 3).all fun bR =>
    (List.finRange 2).all fun bC => isValidUnit (boxCells g (bR, bC)))

/-- SudokuValidator.isValidMove (sudoku.ts lines 36-60): reject values
outside 1..6, place the value on a copy of the grid, and check the affected
row, column and box of the copy.  The copy (`testGrid`) is embedded by
value; the aliasing aspect is treated again in the heap model below. -/
def isValidMove (g : Grid) (r c : Fin 6) (v : Nat) : Bool :=
  if v < 1 || 6 < v then false
  else
    let t := setCell g r c (some v)
    isValidUnit (rowCells t r) && isValidUnit (colCells t c) &&
      isValidUnit (boxCells t (boxIdx r c))

/-- SudokuValidator.isSolved (sudoku.ts lines 62-73): all cells filled and
the grid valid. -/
def isSolved (g : Grid) : Bool :=
  (allCells.all fun p => (g p.1 p.2).isSome) && isValidGrid g

/-- Specification-level: `s` agrees with `p` on every cell `p` fills. -/
def ExtendsG (p s : Grid) : Prop :=
  ∀ r c v, p r c = some v → s r c = some v

/-- Specification-level: every cell is filled. -/
def FullGrid (s : Grid) : Prop := ∀ r c, (s r c).isSome

/-- Specification-level: every filled cell holds an integer 1..6 (the data
model of spec §3: cells are integers 1..6 or empty). -/
def InRange (s : Grid) : Prop :=
  ∀ r c v, s r c = some v → 1 ≤ v ∧ v ≤ 6

/-- Specification-level: `s` is a completion of the puzzle `p` into a full
valid grid (spec §3 Puzzle invariant and §4.6). -/
def Completion (p s : Grid) : Prop :=
  FullGrid s ∧ InRange s ∧ isValidGrid s = true ∧ ExtendsG p s

instance (p s : Grid) : Decidable (ExtendsG p s) :=
  decidable_of_iff (∀ r c : Fin 6, p r c = none ∨ p r c = s r c) <| by
    constructor
    · intro h r c v hv
      rcases h r c with h' | h'
      · rw [hv] at h'; cases h'
      · rw [← h', hv]
    · intro h r c
      cases hp : p r c with
      | none => exact Or.inl rfl
      | some v => exact Or.inr (h r c v hp).symm


instance (s : Grid) : Decidable (InRange s) :=
  decidable_of_iff
      (∀ r c : Fin 6, (s r c).all (fun v => decide (1 ≤ v) && decide (v ≤ 6)) = true) <| by
    constructor
    · intro h r c v hv
      have := h r c
      rw [hv] at this
      simp only [Option.all_some, Bool.and_eq_true, decide_eq_true_eq] at this
      exact this
    · intro h r c
      cases hs : s r c with
      | none => rfl
      | some v =>
        simp only [Option.all_some, Bool.and_eq_true, decide_eq_true_eq]
        exact h r c v hs

instance (s : Grid) : Decidable (FullGrid s) := by
  unfold FullGrid
  infer_instance

instance (p s : Grid) : Decidable (Completion p s) := by
  unfold Completion
  infer_instance

/-- Candidate map: per cell a set of remaining values
(hint-system types: CandidateGrid, a nested `{[row]: {[col]: Set<number>}}`
object always populated for all 36 keys by its constructors). -/
abbrev CandGrid := Fin 6 → Fin 6 → Finset Nat

/-- The value list `[1, 2, 3, 4, 5, 6]` tried by the generator and the
technique scans (`for (let value = 1; value <= 6; value++)`). -/
def vals16 : List Nat := [1, 2, 3, 4, 5, 6]

/-- CandidateCalculator.calculateCellCandidates (candidate-calculator.ts
lines 28-69): empty set for a filled cell, otherwise `{1..6}` with every
value seen in the cell's row, column and box deleted.  The delete loops of
the source are embedded as one set difference, which yields the same set. -/
def calculateCellCandidates (g : Grid) (r c : Fin 6) : Finset Nat :=
  if g r c ≠ none then ∅
  else
    ({1, 2, 3, 4, 5, 6} : Finset Nat) \
      (((rowCells g r).filterMap id).toFinset ∪
       ((colCells g c).filterMap id).toFinset ∪
       ((boxCells g (boxIdx r c)).filterMap id).toFinset)

/-- CandidateCalculator.calculateAllCandidates (lines 8-23): candidates for
empty cells, a fresh empty set for filled cells. -/
def calculateAllCandidates (g : Grid) : CandGrid :=
  fun r c => if g r c = none then calculateCellCandidates g r c else ∅

/-- A player move (hint-system types: PlayerMove); `value = none` clears. -/
structure PlayerMove where
  row : Fin 6
  col : Fin 6
  value : Option Nat
  isUndo : Option Bool := none
deriving DecidableEq, Repr

/-- CandidateCalculator.updateCandidatesAfterMove (lines 74-119).  The
source first deep-copies the map and then mutates only the copy; the copy
is embedded by value.  Clearing recomputes only the cleared cell; placing
`v` empties the cell's own set and erases `v` from every peer in the same
row, column or box (the three peer loops of the source are merged into one
peer condition; a cell hit by two loops is erased twice there, once here,
with the same resulting set). -/
def updateCandidatesAfterMove (g : Grid) (cand : CandGrid) (mv : PlayerMove) :
    CandGrid :=
  match mv.value with
  | none => fun r c =>
      if r = mv.row ∧ c = mv.col then calculateCellCandidates g mv.row mv.col
      else cand r c
  | some v => fun r c =>
      if r = mv.row ∧ c = mv.col then ∅
      else if r = mv.row ∨ c = mv.col ∨ boxIdx r c = boxIdx mv.row mv.col then
        (cand r c).erase v
      else cand r c

/-- CandidateCalculator.findCellsWithNoCandidates (lines 124-137): all cells
whose candidate set is empty, in row-major order.  Note the source consults
only the candidate map, never the grid, so filled cells (stored with an
empty set by calculateAllCandidates) qualify too. -/
def findCellsWithNoCandidates (cand : CandGrid) : List (Fin 6 × Fin 6) :=
  allCells.filter fun p => (cand p.1 p.2).card == 0

/-- CandidateCalculator.findNakedSingles (lines 142-162): cells whose
candidate set has exactly one element, with that element
(`Array.from(set)[0]`, taken from the JS Set iteration order: the values of
1..6 still in the set; the sets here always hold values 1..6 only, having
been built from `{1..6}` by deletions). -/
def ccFindNakedSingles (cand : CandGrid) : List (Fin 6 × Fin 6 × Nat) :=
  allCells.filterMap fun p =>
    match vals16.filter (fun v => v ∈ cand p.1 p.2) with
    | [v] => some (p.1, p.2, v)
    | _ => none

/-- Unit kinds named by hidden singles ('row' | 'column' | 'box'). -/
inductive UnitKind where
  | row
  | column
  | box
deriving DecidableEq, Repr

/-- CandidateCalculator.findHiddenSingles (lines 167-251): for each row,
column and box (in that order) and each value 1..6, if exactly one empty
cell of the unit has the value as candidate, record it. -/
def ccFindHiddenSingles (g : Grid) (cand : CandGrid) :
    List (Fin 6 × Fin 6 × Nat × UnitKind) :=
  ((List.finRange 6).flatMap fun r =>
    vals16.filterMap fun v =>
      match (List.finRange 6).filter
          (fun c => decide (g r c = none) && decide (v ∈ cand r c)) with
      | [c] => some (r, c, v, UnitKind.row)
      | _ => none) ++
  ((List.finRange 6).flatMap fun c =>
    vals16.filterMap fun v =>
      match (List.finRange 6).filter
          (fun r => decide (g r c = none) && decide (v ∈ cand r c)) with
      | [r] => some (r, c, v, UnitKind.column)
      | _ => none) ++
  ((List.finRange 3).flatMap fun bR =>
    (List.finRange 2).flatMap fun bC =>
      vals16.filterMap fun v =>
        match ((List.finRange 2).flatMap fun i =>
            (List.finRange 3).filterMap fun j =>
              let r : Fin 6 := ⟨2 * bR.val + i.val, by omega⟩
              let c : Fin 6 := ⟨3 * bC.val + j.val, by omega⟩
              if decide (g r c = none) && decide (v ∈ cand r c) then some (r, c)
              else none) with
        | [p] => some (p.1, p.2, v, UnitKind.box)
        | _ => none)

/-- The two techniques (hint-system types: SolvingTechnique). -/
inductive SolvingTechnique where
  | nakedSingle
  | hiddenSingle
deriving DecidableEq, Repr

/-- A hint move (hint-system types: HintMove). -/
structure HintMove where
  type : Bool  -- true for 'place' (the only kind the source constructs)
  row : Fin 6
  col : Fin 6
  value : Nat
  technique : SolvingTechnique
  explanation : String
  confidence : Rat
deriving DecidableEq, Repr

/-- SolvingTechniques.getCellName: "R{row+1}C{col+1}". -/
def getCellName (r c : Fin 6) : String :=
  "R" ++ toString (r.val + 1) ++ "C" ++ toString (c.val + 1)

/-- SolvingTechniques.explainNakedSingle (solving-techniques.ts 385-388). -/
def explainNakedSingle (r c : Fin 6) (v : Nat) : String :=
  getCellName r c ++ " can only be " ++ toString v ++
    ". This is the only number that fits in this cell based on the numbers already placed in its row, column, and box."

/-- SolvingTechniques.getUnitName (solving-techniques.ts 456-469). -/
def getUnitName (r c : Fin 6) (u : UnitKind) : String :=
  match u with
  | .row => "row " ++ toString (r.val + 1)
  | .column => "column " ++ toString (c.val + 1)
  | .box => "box " ++ toString (r.val / 2 + 1) ++ "-" ++ toString (c.val / 3 + 1)

/-- SolvingTechniques.explainHiddenSingle (solving-techniques.ts 393-403). -/
def explainHiddenSingle (r c : Fin 6) (v : Nat) (u : UnitKind) : String :=
  getCellName r c ++ " must be " ++ toString v ++
    ". This is the only place where " ++ toString v ++ " can go in " ++
    getUnitName r c u ++ "."

/-- SolvingTechniques.findNakedSingles (solving-techniques.ts 333-351):
wrap each naked single as a 'place' HintMove with confidence 1.0. -/
def stFindNakedSingles (cand : CandGrid) : List HintMove :=
  (ccFindNakedSingles cand).map fun t =>
    { type := true, row := t.1, col := t.2.1, value := t.2.2,
      technique := .nakedSingle,
      explanation := explainNakedSingle t.1 t.2.1 t.2.2, confidence := 1 }

/-- SolvingTechniques.findHiddenSingles (solving-techniques.ts 357-380). -/
def stFindHiddenSingles (g : Grid) (cand : CandGrid) : List HintMove :=
  (ccFindHiddenSingles g cand).map fun t =>
    { type := true, row := t.1, col := t.2.1, value := t.2.2.1,
      technique := .hiddenSingle,
      explanation := explainHiddenSingle t.1 t.2.1 t.2.2.1 t.2.2.2,
      confidence := 1 }

/-- HintEngine.removeDuplicateMoves (hint-engine.ts 197-210): keep the first
move for each (row, col, value) key. -/
def removeDuplicateMovesAux :
    List HintMove → List (Fin 6 × Fin 6 × Nat) → List HintMove
  | [], _ => []
  | m :: rest, seen =>
    if (m.row, m.col, m.value) ∈ seen then removeDuplicateMovesAux rest seen
    else m :: removeDuplicateMovesAux rest ((m.row, m.col, m.value) :: seen)

/-- HintEngine.removeDuplicateMoves, entry point. -/
def removeDuplicateMoves (moves : List HintMove) : List HintMove :=
  removeDuplicateMovesAux moves []

/-- HintEngine.findAllAvailableMoves (hint-engine.ts 179-192): naked singles
first, then hidden singles, deduplicated by (row, col, value). -/
def findAllAvailableMoves (g : Grid) (cand : CandGrid) : List HintMove :=
  removeDuplicateMoves (stFindNakedSingles cand ++ stFindHiddenSingles g cand)

/-- Error kinds of ErrorLocation (hint-system types). -/
inductive ErrType where
  | contradiction
  | invalidMove
  | noSolution
deriving DecidableEq, Repr

/-- An error location (hint-system types: ErrorLocation). -/
structure ErrorLocation where
  row : Fin 6
  col : Fin 6
  type : ErrType
  description : String
  suggestedAction : Option String
deriving DecidableEq, Repr

/-- HintEngine.detectErrors (hint-engine.ts 116-159): first a 'no_solution'
error for every cell the candidate map shows with an empty set, then an
'invalid_move' error for every filled cell whose value would be rejected by
isValidMove after temporarily clearing the cell. -/
def detectErrors (g : Grid) (cand : CandGrid) : List ErrorLocation :=
  ((findCellsWithNoCandidates cand).map fun p =>
    { row := p.1, col := p.2, type := ErrType.noSolution,
      description := "Cell " ++ getCellName p.1 p.2 ++ " has no possible values.",
      suggestedAction :=
        some "Check recent moves for errors and consider undoing them." }) ++
  (allCells.filterMap fun p =>
    match g p.1 p.2 with
    | none => none
    | some v =>
      if isValidMove (setCell g p.1 p.2 none) p.1 p.2 v then none
      else some
        { row := p.1, col := p.2, type := ErrType.invalidMove,
          description := "Value " ++ toString v ++ " at " ++
            getCellName p.1 p.2 ++ " violates Sudoku rules.",
          suggestedAction :=
            some "This cell contains an invalid value and should be corrected." })

/-- Board analysis result (hint-system types: BoardAnalysis). -/
structure BoardAnalysis where
  availableMoves : List HintMove
  candidateGrid : CandGrid
  errors : List ErrorLocation
  isValid : Bool
  isSolvable : Bool

/-- HintEngine.analyzeBoard (hint-engine.ts 26-47). -/
def analyzeBoard (g : Grid) : BoardAnalysis :=
  let candidateGrid := calculateAllCandidates g
  let availableMoves := findAllAvailableMoves g candidateGrid
  let errors := detectErrors g candidateGrid
  let isValid := isValidGrid g && errors.length == 0
  let isSolvable := isValid && (decide (availableMoves.length > 0) || isSolved g)
  ⟨availableMoves, candidateGrid, errors, isValid, isSolvable⟩

/-- Position of a technique in TechniquePriority.TECHNIQUE_ORDER
(solving-techniques.ts 476-479): naked single first. -/
def techniquePriorityIndex : SolvingTechnique → Nat
  | .nakedSingle => 0
  | .hiddenSingle => 1

/-- The comparator passed to Array.prototype.sort by
TechniquePriority.sortMovesByPriority (solving-techniques.ts 484-496):
technique priority ascending, then confidence descending. -/
def moveCmp (a b : HintMove) : Rat :=
  if techniquePriorityIndex a.technique ≠ techniquePriorityIndex b.technique then
    (techniquePriorityIndex a.technique : Rat) - techniquePriorityIndex b.technique
  else b.confidence - a.confidence

/-- Stable insertion used to embed the (ES2019-stable) Array.prototype.sort:
an element moves past `y` only when the comparator strictly orders `y`
before it, so elements the comparator ties keep their original order. -/
def insertByCmp (x : HintMove) : List HintMove → List HintMove
  | [] => [x]
  | y :: ys => if moveCmp y x < 0 then y :: insertByCmp x ys else x :: y :: ys

/-- TechniquePriority.sortMovesByPriority (solving-techniques.ts 484-496)
as a stable sort with the source's comparator. -/
def sortMovesByPriority (moves : List HintMove) : List HintMove :=
  moves.foldr insertByCmp []

/-- HintEngine.findNextMove (hint-engine.ts 52-68): null on any error or
when no technique applies, else the top move in priority order. -/
def findNextMove (g : Grid) : Option HintMove :=
  let analysis := analyzeBoard g
  if analysis.errors.length > 0 then none
  else if analysis.availableMoves.length == 0 then none
  else (sortMovesByPriority analysis.availableMoves).head?

/-- Candidate computation of the local getCandidates inside
hasNextLogicalMove (sudoku.ts 546-581): a cell filled with a nonzero number
has no candidates; otherwise `{1..6}` minus every nonzero number seen in the
cell's row, column and box, returned in the JS Set iteration order: the
set is built from the insertion order 1..6 by deletions, so `Array.from`
enumerates exactly the values of 1..6 still in the set, in that order. -/
def hnCandidates (g : Grid) (r c : Fin 6) : List Nat :=
  if (g r c).isSome ∧ g r c ≠ some 0 then []
  else
    vals16.filter (fun v =>
      v ∈ ({1, 2, 3, 4, 5, 6} : Finset Nat) \
        ((((rowCells g r).filterMap id).filter (fun v => v ≠ 0)).toFinset ∪
         (((colCells g c).filterMap id).filter (fun v => v ≠ 0)).toFinset ∪
         (((boxCells g (boxIdx r c)).filterMap id).filter (fun v => v ≠ 0)).toFinset))

/-- hasNextLogicalMove (sudoku.ts 540-591): true iff some cell, scanned in
row-major order, has exactly one candidate. -/
def hasNextLogicalMove (g : Grid) : Bool :=
  allCells.any fun p => (hnCandidates g p.1 p.2).length == 1

/-- Number of empty cells of a grid (proof-side measure for the
backtracking recursions; the source has no explicit counterpart). -/
def emptyCount (g : Grid) : Nat :=
  (Finset.univ.filter fun p : Fin 6 × Fin 6 => g p.1 p.2 = none).card

/-- Row and column of flattened position `pos` (the solver of
findAllSolutions walks cells as (row, col) with `nextRow`/`nextCol`; here
positions 0..35 are flattened row-major, `pos = row * 6 + col`). -/
def posCell (pos : Nat) (h : pos < 36) : Fin 6 × Fin 6 :=
  (⟨pos / 6, by omega⟩, ⟨pos % 6, by omega⟩)

/-- The recursive `solve` of SudokuGenerator.findAllSolutions (sudoku.ts
355-381): stop once `max` solutions are collected, record the grid when
past the last cell, skip filled cells, otherwise run the value loop
`for (let num = 1; num <= 6; num++)`, embedded as a fold threading the
shared `solutions` array through the branches.  The extra `fuel` argument
only makes the recursion structural: every recursive call consumes one
unit while advancing one cell position, so the initial fuel of 37 supplied
by findAllSolutions is never exhausted (the lemmas below need just
`36 - pos < fuel`). -/
def solveAll : Nat → Nat → Grid → Nat → List Grid → List Grid
  | 0, _, _, _, acc => acc
  | fuel + 1, max, g, pos, acc =>
    if max ≤ acc.length then acc
    else if h : pos < 36 then
      match g (posCell pos h).1 (posCell pos h).2 with
      | some _ => solveAll fuel max g (pos + 1) acc
      | none =>
        vals16.foldl (fun a v =>
          if isValidMove g (posCell pos h).1 (posCell pos h).2 v then
            solveAll fuel max
              (setCell g (posCell pos h).1 (posCell pos h).2 (some v))
              (pos + 1) a
          else a) acc
    else acc ++ [g]

/-- SudokuGenerator.findAllSolutions (sudoku.ts 351-385): collect up to
`max` completions, scanning cells row-major from (0,0). -/
def findAllSolutions (g : Grid) (max : Nat) : List Grid :=
  solveAll 37 max g 0 []

/-- SudokuGenerator.hasUniqueSolution (sudoku.ts 340-349): exactly one
solution found (searching with cap 2) and it equals the expected solution
(`JSON.stringify` equality of the grids). -/
def hasUniqueSolution (p expectedSolution : Grid) : Bool :=
  match findAllSolutions p 2 with
  | [s] => decide (s = expectedSolution)
  | _ => false

mutual

/-- Ghost enumeration (proof-side only): the value branches of the
uncapped solver, in the same order as solveVals. -/
def enumVals (g : Grid) (r c : Fin 6) (pos' : Nat) (vs : List Nat) :
    List Grid :=
  match vs with
  | [] => []
  | v :: rest =>
    (if isValidMove g r c v then enumSolve (setCell g r c (some v)) pos'
     else []) ++ enumVals g r c pos' rest
termination_by ((36 - pos' : Nat), 1, vs.length)
decreasing_by
  · exact Prod.Lex.right _ (Prod.Lex.left _ _ (by omega))
  · exact Prod.Lex.right _ (Prod.Lex.right _ (by simp only [List.length_cons]; omega))

/-- Ghost enumeration (proof-side only): every solution the solver's
search tree reaches from position `pos`, in search order, without the
early-stop cap.  solveAll is related to this list by a take-lemma below. -/
def enumSolve (g : Grid) (pos : Nat) : List Grid :=
  if h : pos < 36 then
    let p := posCell pos h
    match g p.1 p.2 with
    | some _ => enumSolve g (pos + 1)
    | none => enumVals g p.1 p.2 (pos + 1) vals16
  else [g]
termination_by ((36 - pos : Nat), 0, 0)
decreasing_by
  · exact Prod.Lex.left _ _ (by omega)
  · exact Prod.Lex.left _ _ (by omega)

end

/-- A random source: draw `i` is `rnd i`; each consumer tracks the index
of the next draw.  `Math.floor(Math.random() * bound)` at draw index `k`
is embedded as `rnd k % bound`, so quantifying over all `rnd` covers every
possible sequence of random choices. -/
abbrev Rnd := Nat → Nat

/-- One Fisher–Yates swap step (sudoku.ts 434-439): read both positions
and exchange them when both reads are in bounds (`!== undefined`). -/
def listSwap {α : Type} (l : List α) (i j : Nat) : List α :=
  match l[i]?, l[j]? with
  | some a, some b => (l.set i b).set j a
  | _, _ => l

/-- The loop of SudokuGenerator.shuffleArray (sudoku.ts 430-442): for `i`
from `length - 1` down to `1`, swap position `i` with a random position
`j ≤ i`. -/
def shuffleGo {α : Type} (rnd : Rnd) : List α → Nat → Nat → List α × Nat
  | l, k, 0 => (l, k)
  | l, k, i + 1 =>
    let j := rnd k % (i + 2)
    shuffleGo rnd (listSwap l (i + 1) j) (k + 1) i

/-- SudokuGenerator.shuffleArray (sudoku.ts 430-442), returning the
shuffled copy and the next unused draw index. -/
def shuffleArray {α : Type} (l : List α) (rnd : Rnd) (k : Nat) :
    List α × Nat :=
  shuffleGo rnd l k (l.length - 1)

/-- First empty cell in row-major order.  SudokuGenerator.fillGrid scans
`for (row...) for (col...)` and acts on the first null cell it meets
(returning from inside the loop either way), so each recursion level
works on exactly this cell. -/
def findFirstEmptyCell (g : Grid) : Option (Fin 6 × Fin 6) :=
  allCells.find? fun p => (g p.1 p.2).isNone

mutual

/-- The value loop of SudokuGenerator.fillGrid (sudoku.ts 163-173): try
the shuffled values on the first empty cell; on a dead end undo
(backtracking makes the undo implicit here: the recursion resumes with
the unmodified `g`) and try the next value. -/
def fillTry (g : Grid) (r c : Fin 6) (hrc : g r c = none) (rnd : Rnd) :
    List Nat → Nat → Option Grid × Nat
  | [], k => (none, k)
  | n :: rest, k =>
    if isValidMove g r c n then
      match fillGrid (setCell g r c (some n)) rnd k with
      | (some g', k') => (some g', k')
      | (none, k') => fillTry g r c hrc rnd rest k'
    else fillTry g r c hrc rnd rest k
termination_by vs _k => (emptyCount g, 0, vs.length)
decreasing_by
  · refine Prod.Lex.left _ _ ?_
    have hss : (Finset.univ.filter
        fun p : Fin 6 × Fin 6 => setCell g r c (some n) p.1 p.2 = none) ⊂
        (Finset.univ.filter fun p : Fin 6 × Fin 6 => g p.1 p.2 = none) := by
      constructor
      · intro p hp
        simp only [Finset.mem_filter, Finset.mem_univ, true_and] at hp ⊢
        by_cases hpe : p.1 = r ∧ p.2 = c
        · exfalso
          simp [setCell, hpe.1, hpe.2] at hp
        · simpa [setCell, hpe] using hp
      · intro hsub
        have hrc' : (r, c) ∈ (Finset.univ.filter
            fun p : Fin 6 × Fin 6 => g p.1 p.2 = none) := by
          simp [hrc]
        have := hsub hrc'
        simp [setCell] at this
    exact Finset.card_lt_card hss
  · exact Prod.Lex.right _ (Prod.Lex.right _ (by simp only [List.length_cons]; omega))
  · exact Prod.Lex.right _ (Prod.Lex.right _ (by simp only [List.length_cons]; omega))

/-- SudokuGenerator.fillGrid (sudoku.ts 153-181): recursive randomized
backtracking; succeeds returning the (here: new) filled grid, or fails
with every placement undone. -/
def fillGrid (g : Grid) (rnd : Rnd) (k : Nat) : Option Grid × Nat :=
  match hf : findFirstEmptyCell g with
  | none => (some g, k)
  | some p =>
    let (nums, k₁) := shuffleArray vals16 rnd k
    fillTry g p.1 p.2 (by
      have := List.find?_some hf
      simpa using this) rnd nums k₁
termination_by (emptyCount g, 1, 0)
decreasing_by
  · exact Prod.Lex.right _ (Prod.Lex.left _ _ (by omega))

end

/-- SudokuGenerator.generateCompleteSolution (sudoku.ts 141-151): run the
backtracking filler on an empty grid.  On failure every placement has been
undone, so the source returns the (still empty) grid; that branch is proved
unreachable below. -/
def generateCompleteSolution (rnd : Rnd) (k : Nat) : Grid × Nat :=
  match fillGrid emptyGrid rnd k with
  | (some g, k') => (g, k')
  | (none, k') => (emptyGrid, k')

/-- Difficulty tiers ('easy' | 'medium' | 'hard'). -/
inductive Difficulty where
  | easy
  | medium
  | hard
deriving DecidableEq, Repr

/-- SudokuGenerator.getCellsToRemove (sudoku.ts 210-221). -/
def getCellsToRemove : Difficulty → Nat
  | .easy => 18
  | .medium => 22
  | .hard => 26

/-- SudokuGenerator.getMinimumClues (sudoku.ts 387-398). -/
def getMinimumClues : Difficulty → Nat
  | .easy => 16
  | .medium => 12
  | .hard => 8

/-- Count of filled cells (`puzzle.flat().filter(cell => cell !== null).length`). -/
def filledCellCount (g : Grid) : Nat :=
  (allCells.filter fun p => (g p.1 p.2).isSome).length

/-- Mutable state of the carving loops of createGuidedPuzzle: the working
puzzle, `removedCells` and `consecutiveFailures`. -/
structure CarveState where
  puzzle : Grid
  removed : Nat
  fails : Nat

/-- One iteration body of the inner loop of
SudokuGenerator.createGuidedPuzzle (sudoku.ts 244-272), without the two
break conditions (which live in guidedInner): skip an already empty cell;
otherwise clear the cell, keep the removal if uniqueness, logical-move
availability and the minimum clue floor all still hold, else restore. -/
def guidedStep (sol : Grid) (minClues : Nat) (st : CarveState)
    (p : Fin 6 × Fin 6) : CarveState :=
  match st.puzzle p.1 p.2 with
  | none => st
  | some orig =>
    let puzzle' := setCell st.puzzle p.1 p.2 none
    if hasUniqueSolution puzzle' sol && hasNextLogicalMove puzzle' &&
        decide (minClues ≤ filledCellCount puzzle') then
      ⟨puzzle', st.removed + 1, 0⟩
    else
      ⟨setCell puzzle' p.1 p.2 (some orig), st.removed, st.fails + 1⟩

/-- The inner `for (const [row, col] of shuffledPositions)` loop of
createGuidedPuzzle (sudoku.ts 244-272), with its two leading break
conditions (`removedCells >= targetCells`, `consecutiveFailures >= 10`). -/
def guidedInner (sol : Grid) (target minClues : Nat) :
    CarveState → List (Fin 6 × Fin 6) → CarveState
  | st, [] => st
  | st, p :: rest =>
    if target ≤ st.removed then st
    else if 10 ≤ st.fails then st
    else guidedInner sol target minClues (guidedStep sol minClues st p) rest

/-- The pass loop `for (let pass = 0; pass < 3 && removedCells <
targetCells; pass++)` of createGuidedPuzzle (sudoku.ts 241-273), counting
remaining passes; each pass reshuffles the position list. -/
def guidedPasses (sol : Grid) (target minClues : Nat) (rnd : Rnd) :
    Nat → CarveState → Nat → CarveState × Nat
  | 0, st, k => (st, k)
  | n + 1, st, k =>
    if target ≤ st.removed then (st, k)
    else
      let (ps, k') := shuffleArray allCells rnd k
      guidedPasses sol target minClues rnd n
        (guidedInner sol target minClues st ps) k'

/-- SudokuGenerator.createGuidedPuzzle (sudoku.ts 224-284): carve a copy of
the solution over up to three shuffled passes, and return it unless no
logical next move is left (`return null`). -/
def createGuidedPuzzle (sol : Grid) (d : Difficulty) (rnd : Rnd) (k : Nat) :
    Option Grid × Nat :=
  let (st, k') := guidedPasses sol (getCellsToRemove d) (getMinimumClues d)
    rnd 3 ⟨sol, 0, 0⟩ k
  if hasNextLogicalMove st.puzzle then (some st.puzzle, k') else (none, k')

/-- The single removal loop of SudokuGenerator.createValidPuzzle
(sudoku.ts 303-322); state is the working puzzle and `removedCells`. -/
def validInner (sol : Grid) (target : Nat) :
    Grid × Nat → List (Fin 6 × Fin 6) → Grid × Nat
  | s, [] => s
  | (pz, rem), p :: rest =>
    if target ≤ rem then (pz, rem)
    else
      match pz p.1 p.2 with
      | none => validInner sol target (pz, rem) rest
      | some orig =>
        let pz' := setCell pz p.1 p.2 none
        if hasUniqueSolution pz' sol && hasNextLogicalMove pz' then
          validInner sol target (pz', rem + 1) rest
        else
          validInner sol target (setCell pz' p.1 p.2 (some orig), rem) rest

/-- SudokuGenerator.createValidPuzzle (sudoku.ts 286-338): one shuffled
removal pass, then the minimum-clue check and the final logical-move
check, either of which yields `null`. -/
def createValidPuzzle (sol : Grid) (d : Difficulty) (rnd : Rnd) (k : Nat) :
    Option Grid × Nat :=
  let (ps, k') := shuffleArray allCells rnd k
  let s := validInner sol (getCellsToRemove d) (sol, 0) ps
  if filledCellCount s.1 < getMinimumClues d then (none, k')
  else if !hasNextLogicalMove s.1 then (none, k')
  else (some s.1, k')

/-- SudokuGenerator.removeCells (sudoku.ts 183-208): clear the first
`cellsToRemove` cells of a shuffled position list on a copy of the
solution. -/
def removeCells (sol : Grid) (cellsToRemove : Nat) (rnd : Rnd) (k : Nat) :
    Grid × Nat :=
  let (ps, k') := shuffleArray allCells rnd k
  ((ps.take cellsToRemove).foldl (fun g p => setCell g p.1 p.2 none) sol, k')

/-- The adjustment loop of SudokuGenerator.generateFallbackPuzzle
(sudoku.ts 414-420): while the puzzle has no logical next move and fewer
than 5 adjustment attempts were made, re-remove fewer cells. -/
def fallbackLoop (sol : Grid) (conservative : Nat) (rnd : Rnd) :
    Nat → Grid → Nat → Grid × Nat
  | a, pz, k =>
    if hasNextLogicalMove pz then (pz, k)
    else if 5 ≤ a then (pz, k)
    else
      let (pz', k') := removeCells sol (max 1 (conservative - (a + 1))) rnd k
      fallbackLoop sol conservative rnd (a + 1) pz' k'
termination_by a => 5 - a
decreasing_by omega

/-- SudokuGenerator.generateFallbackPuzzle (sudoku.ts 400-428): a fresh
complete solution with a conservative number of cells removed, adjusted
while no logical move exists; note no uniqueness check is performed. -/
def generateFallbackPuzzle (d : Difficulty) (rnd : Rnd) (k : Nat) :
    (Grid × Grid) × Nat :=
  let (sol, k₁) := generateCompleteSolution rnd k
  let conservative := max 1 (getCellsToRemove d - 4)
  let (pz0, k₂) := removeCells sol conservative rnd k₁
  let (pz, k₃) := fallbackLoop sol conservative rnd 0 pz0 k₂
  ((pz, sol), k₃)

/-- The attempt loop of SudokuGenerator.generatePuzzle (sudoku.ts
106-134), counting remaining attempts (maxAttempts = 15); the source's
`if (!solution) continue` never fires since an array is always truthy. -/
def generatePuzzleLoop (d : Difficulty) (rnd : Rnd) :
    Nat → Nat → (Grid × Grid) × Nat
  | 0, k => generateFallbackPuzzle d rnd k
  | n + 1, k =>
    let (sol, k₁) := generateCompleteSolution rnd k
    let go :=
      match createGuidedPuzzle sol d rnd k₁ with
      | (some p, k') => (some p, k')
      | (none, k') => createValidPuzzle sol d rnd k'
    match go with
    | (some p, k₂) =>
      if hasUniqueSolution p sol && hasNextLogicalMove p then ((p, sol), k₂)
      else generatePuzzleLoop d rnd n k₂
    | (none, k₂) => generatePuzzleLoop d rnd n k₂

/-- SudokuGenerator.generatePuzzle (sudoku.ts 102-139): up to 15 attempts,
then the fallback. -/
def generatePuzzle (d : Difficulty) (rnd : Rnd) (k : Nat) :
    (Grid × Grid) × Nat :=
  generatePuzzleLoop d rnd 15 k

/-- A minimal heap of values of one type, used to make the aliasing
behaviour of the frame claims observable: JS objects are references, and
copying (`grid.map(r => [...r])`, `deepCopyGrid`, `deepCopyCandidates`)
allocates a fresh reference whose later mutation cannot affect the
original. -/
structure Heap (α : Type) where
  data : List α

/-- Dereference; out-of-range reads return a default (never exercised by
the theorems below). -/
def Heap.read {α : Type} [Inhabited α] (h : Heap α) (i : Nat) : α :=
  h.data.getD i default

/-- In-place mutation of the object behind reference `i`. -/
def Heap.write {α : Type} (h : Heap α) (i : Nat) (a : α) : Heap α :=
  ⟨h.data.set i a⟩

/-- Allocate a fresh object, returning its reference. -/
def Heap.alloc {α : Type} (h : Heap α) (a : α) : Heap α × Nat :=
  (⟨h.data ++ [a]⟩, h.data.length)

instance : Inhabited Grid := ⟨emptyGrid⟩

instance : Inhabited CandGrid := ⟨fun _ _ => ∅⟩

/-- SudokuValidator.isValidMove as a call on a heap-allocated grid
(sudoku.ts 36-60): the early range check returns before any allocation;
otherwise the grid is copied into a fresh object (`testGrid`), the value
is written into the copy, and the three unit checks read the copy. -/
def isValidMoveCall (h : Heap Grid) (gref : Nat) (r c : Fin 6) (v : Nat) :
    Bool × Heap Grid :=
  if v < 1 || 6 < v then (false, h)
  else
    let (h₁, tref) := h.alloc (h.read gref)
    let h₂ := h₁.write tref (setCell (h₁.read tref) r c (some v))
    let t := h₂.read tref
    (isValidUnit (rowCells t r) && isValidUnit (colCells t c) &&
      isValidUnit (boxCells t (boxIdx r c)), h₂)

/-- CandidateCalculator.updateCandidatesAfterMove as a call on a
heap-allocated candidate map (candidate-calculator.ts 74-119): the map is
deep-copied into a fresh object and all mutations target the copy, whose
reference is returned. -/
def updateCandidatesAfterMoveCall (h : Heap CandGrid) (cref : Nat)
    (g : Grid) (mv : PlayerMove) : Nat × Heap CandGrid :=
  let (h₁, nref) := h.alloc (h.read cref)
  let h₂ := h₁.write nref (updateCandidatesAfterMove g (h₁.read nref) mv)
  (nref, h₂)

/-- A move history entry (hint-system types: MoveHistoryEntry);
`boardStateBefore` holds the reference to the snapshot object allocated by
addMove's `deepCopyGrid`. -/
structure MoveHistoryEntry where
  move : PlayerMove
  timestamp : Nat
  boardStateBefore : Nat
  wasHintUsed : Bool
  technique : Option SolvingTechnique

/-- The private mutable state of a MoveHistoryManager (move-history.ts
line 10). -/
structure MoveHistoryState where
  history : List MoveHistoryEntry

/-- MoveHistoryManager.maxHistorySize (move-history.ts line 11). -/
def maxHistorySize : Nat := 100

/-- MoveHistoryManager.addMove (move-history.ts 16-36): snapshot the
caller's grid with deepCopyGrid (a fresh allocation), push the entry, trim
to the last `maxHistorySize` entries (`history.slice(-maxHistorySize)`).
`Date.now()` is passed in as `now`. -/
def addMove (h : Heap Grid) (st : MoveHistoryState) (move : PlayerMove)
    (gref : Nat) (wasHintUsed : Bool) (technique : Option SolvingTechnique)
    (now : Nat) : Heap Grid × MoveHistoryState :=
  let (h₁, copyRef) := h.alloc (h.read gref)
  let hist := st.history ++ [⟨move, now, copyRef, wasHintUsed, technique⟩]
  let hist' :=
    if maxHistorySize < hist.length then hist.drop (hist.length - maxHistorySize)
    else hist
  (h₁, ⟨hist'⟩)

/-- MoveHistoryManager.getBoardStateAtIndex (move-history.ts 76-79): the
snapshot behind the entry at `index`, deep-copied again into a value. -/
def getBoardStateAtIndex (h : Heap Grid) (st : MoveHistoryState) (i : Nat) :
    Option Grid :=
  match st.history[i]? with
  | some e => some (h.read e.boardStateBefore)
  | none => none

/-- MoveHistoryManager.getLastMove (move-history.ts 55-57). -/
def getLastMove (st : MoveHistoryState) : Option MoveHistoryEntry :=
  if 0 < st.history.length then st.history[st.history.length - 1]? else none

/-- Build a grid from six rows of six numbers, 0 standing for empty; used
only to state concrete test grids in the theorems below. -/
def mkGrid (rows : List (List Nat)) : Grid := fun r c =>
  match (rows.getD r.val []).getD c.val 0 with
  | 0 => none
  | v => some v

/-- A concrete complete valid 6×6 solution, used as a witness that the
empty grid has a completion and as a base for concrete test puzzles. -/
def gridS0 : Grid := mkGrid [
  [1, 2, 3, 4, 5, 6],
  [4, 5, 6, 1, 2, 3],
  [2, 3, 1, 6, 4, 5],
  [5, 6, 4, 3, 1, 2],
  [3, 1, 2, 5, 6, 4],
  [6, 4, 5, 2, 3, 1]]

/-- gridS0 with its top-left cell cleared: a puzzle with 35 clues whose
single empty cell is forced (the Scenario C shape of the spec). -/
def gridP0 : Grid := setCell gridS0 0 0 none

/-- The grid whose every cell holds 1: fully filled but invalid. -/
def allOnes : Grid := fun _ _ => some 1

/-- The Scenario E shape: locally legal clues (row 0 holds 1..5, a 6 sits
at (1,5)) leaving the empty cell (0,5) with zero candidates. -/
def gridE8 : Grid := mkGrid [
  [1, 2, 3, 4, 5, 0],
  [0, 0, 0, 0, 0, 6],
  [0, 0, 0, 0, 0, 0],
  [0, 0, 0, 0, 0, 0],
  [0, 0, 0, 0, 0, 0],
  [0, 0, 0, 0, 0, 0]]

/-- Positions of the cells of box `b`, in getBox reading order. -/
def boxPositions (b : Fin 3 × Fin 2) : List (Fin 6 × Fin 6) :=
  (List.finRange 2).flatMap (fun i =>
    (List.finRange 3).map (fun j =>
      (⟨2 * b.1.val + i.val, by omega⟩, ⟨3 * b.2.val + j.val, by omega⟩)))

theorem setCell_same (g : Grid) (r c : Fin 6) (v : Cell) :
    setCell g r c v r c = v := by
  simp [setCell]

theorem setCell_ne (g : Grid) (r c : Fin 6) (v : Cell) {r' c' : Fin 6}
    (h : ¬(r' = r ∧ c' = c)) : setCell g r c v r' c' = g r' c' := by
  simp [setCell, h]

theorem setCell_setCell_cancel {g : Grid} {r c : Fin 6} {orig : Nat}
    (h : g r c = some orig) :
    setCell (setCell g r c none) r c (some orig) = g := by
  funext r' c'
  by_cases he : r' = r ∧ c' = c
  · rw [he.1, he.2, setCell_same, h]
  · rw [setCell_ne _ _ _ _ he, setCell_ne _ _ _ _ he]

theorem mem_allCells (p : Fin 6 × Fin 6) : p ∈ allCells := by
  rcases p with ⟨r, c⟩
  simp only [allCells, List.mem_flatMap, List.mem_map]
  exact ⟨r, List.mem_finRange r, c, List.mem_finRange c, rfl⟩

theorem allCells_nodup : allCells.Nodup := by
  decide

theorem mem_vals16 {v : Nat} : v ∈ vals16 ↔ 1 ≤ v ∧ v ≤ 6 := by
  simp only [vals16, List.mem_cons, List.not_mem_nil, or_false]
  omega

theorem vals16_nodup : vals16.Nodup := by decide

theorem mem_filterMap_rowCells {g : Grid} {r : Fin 6} {v : Nat} :
    v ∈ (rowCells g r).filterMap id ↔ ∃ c, g r c = some v := by
  simp only [rowCells, List.mem_filterMap, List.mem_map, id_eq]
  constructor
  · rintro ⟨x, ⟨c, -, rfl⟩, hx⟩
    exact ⟨c, hx⟩
  · rintro ⟨c, hc⟩
    exact ⟨g r c, ⟨c, List.mem_finRange c, rfl⟩, hc⟩

theorem mem_filterMap_colCells {g : Grid} {c : Fin 6} {v : Nat} :
    v ∈ (colCells g c).filterMap id ↔ ∃ r, g r c = some v := by
  simp only [colCells, List.mem_filterMap, List.mem_map, id_eq]
  constructor
  · rintro ⟨x, ⟨r, -, rfl⟩, hx⟩
    exact ⟨r, hx⟩
  · rintro ⟨r, hr⟩
    exact ⟨g r c, ⟨r, List.mem_finRange r, rfl⟩, hr⟩

theorem mem_boxPositions {b : Fin 3 × Fin 2} {p : Fin 6 × Fin 6} :
    p ∈ boxPositions b ↔ boxIdx p.1 p.2 = b := by
  rcases p with ⟨r, c⟩
  rcases b with ⟨bR, bC⟩
  simp only [boxPositions, List.mem_flatMap, List.mem_map]
  constructor
  · rintro ⟨i, -, j, -, heq⟩
    obtain ⟨h1, h2⟩ := Prod.mk.injEq .. ▸ heq
    have hr : r.val = 2 * bR.val + i.val := by
      rw [← h1]
    have hc : c.val = 3 * bC.val + j.val := by
      rw [← h2]
    simp only [boxIdx, Prod.mk.injEq]
    constructor
    · apply Fin.ext
      simp only
      omega
    · apply Fin.ext
      simp only
      omega
  · intro h
    simp only [boxIdx, Prod.mk.injEq] at h
    obtain ⟨h1, h2⟩ := h
    have hr : r.val / 2 = bR.val := congrArg Fin.val h1
    have hc : c.val / 3 = bC.val := congrArg Fin.val h2
    refine ⟨⟨r.val - 2 * bR.val, by omega⟩, List.mem_finRange _,
      ⟨c.val - 3 * bC.val, by omega⟩, List.mem_finRange _, ?_⟩
    simp only [Prod.mk.injEq]
    constructor
    · apply Fin.ext
      simp only
      omega
    · apply Fin.ext
      simp only
      omega

theorem boxCells_eq_map (g : Grid) (b : Fin 3 × Fin 2) :
    boxCells g b = (boxPositions b).map (fun p => g p.1 p.2) := by
  simp only [boxCells, boxPositions, List.map_flatMap, List.map_map]
  rfl

theorem mem_filterMap_boxCells {g : Grid} {b : Fin 3 × Fin 2} {v : Nat} :
    v ∈ (boxCells g b).filterMap id ↔
      ∃ r c, boxIdx r c = b ∧ g r c = some v := by
  rw [boxCells_eq_map]
  simp only [List.mem_filterMap, List.mem_map, id_eq]
  constructor
  · rintro ⟨x, ⟨p, hp, rfl⟩, hx⟩
    exact ⟨p.1, p.2, mem_boxPositions.1 hp, hx⟩
  · rintro ⟨r, c, hb, hv⟩
    exact ⟨g r c, ⟨(r, c), mem_boxPositions.2 hb, rfl⟩, hv⟩

theorem isValidGrid_iff {g : Grid} :
    isValidGrid g = true ↔
      (∀ r, isValidUnit (rowCells g r) = true) ∧
      (∀ c, isValidUnit (colCells g c) = true) ∧
      (∀ b : Fin 3 × Fin 2, isValidUnit (boxCells g b) = true) := by
  simp only [isValidGrid, Bool.and_eq_true, List.all_eq_true]
  constructor
  · rintro ⟨⟨hr, hc⟩, hb⟩
    exact ⟨fun r => hr r (List.mem_finRange r),
      fun c => hc c (List.mem_finRange c),
      fun b => hb b.1 (List.mem_finRange b.1) b.2 (List.mem_finRange b.2)⟩
  · rintro ⟨hr, hc, hb⟩
    exact ⟨⟨fun r _ => hr r, fun c _ => hc c⟩,
      fun bR _ bC _ => hb (bR, bC)⟩

theorem isValidUnit_iff {u : List Cell} :
    isValidUnit u = true ↔ (u.filterMap id).Nodup := by
  simp [isValidUnit]

theorem filterMap_nodup_inj {ι : Type} [DecidableEq ι] {l : List ι}
    {f : ι → Cell} (hnd : (l.filterMap f).Nodup) {a b : ι}
    (ha : a ∈ l) (hb : b ∈ l) (hab : a ≠ b) {v : Nat}
    (hfa : f a = some v) (hfb : f b = some v) : False := by
  have hsub : List.Subperm [a, b] l := by
    refine List.subperm_of_subset (by simp [hab]) ?_
    intro x hx
    rcases List.mem_pair.1 hx with rfl | rfl
    · exact ha
    · exact hb
  obtain ⟨l', hperm, hsl⟩ := hsub
  have hsub2 : List.Subperm ([a, b].filterMap f) (l.filterMap f) :=
    ⟨l'.filterMap f, hperm.filterMap f, hsl.filterMap f⟩
  have hvv : List.Subperm [v, v] (l.filterMap f) := by
    simpa [List.filterMap, hfa, hfb] using hsub2
  obtain ⟨m, hmp, hms⟩ := hvv
  have hmnd : m.Nodup := hms.nodup hnd
  have : ([v, v] : List Nat).Nodup := (hmp.nodup_iff).1 hmnd
  simp at this

theorem rowUnit_inj {g : Grid} {r : Fin 6}
    (h : isValidUnit (rowCells g r) = true) {c₁ c₂ : Fin 6} {v : Nat}
    (h1 : g r c₁ = some v) (h2 : g r c₂ = some v) : c₁ = c₂ := by
  by_contra hne
  have hnd := isValidUnit_iff.1 h
  rw [rowCells, List.filterMap_map] at hnd
  exact filterMap_nodup_inj hnd (List.mem_finRange c₁) (List.mem_finRange c₂)
    hne (by simpa using h1) (by simpa using h2)

theorem colUnit_inj {g : Grid} {c : Fin 6}
    (h : isValidUnit (colCells g c) = true) {r₁ r₂ : Fin 6} {v : Nat}
    (h1 : g r₁ c = some v) (h2 : g r₂ c = some v) : r₁ = r₂ := by
  by_contra hne
  have hnd := isValidUnit_iff.1 h
  rw [colCells, List.filterMap_map] at hnd
  exact filterMap_nodup_inj hnd (List.mem_finRange r₁) (List.mem_finRange r₂)
    hne (by simpa using h1) (by simpa using h2)

theorem boxUnit_inj {g : Grid} {b : Fin 3 × Fin 2}
    (h : isValidUnit (boxCells g b) = true) {p q : Fin 6 × Fin 6} {v : Nat}
    (hp : boxIdx p.1 p.2 = b) (hq : boxIdx q.1 q.2 = b)
    (h1 : g p.1 p.2 = some v) (h2 : g q.1 q.2 = some v) : p = q := by
  by_contra hne
  have hnd := isValidUnit_iff.1 h
  rw [boxCells_eq_map, List.filterMap_map] at hnd
  exact filterMap_nodup_inj hnd (mem_boxPositions.2 hp) (mem_boxPositions.2 hq)
    hne (by simpa using h1) (by simpa using h2)

theorem extendsG_refl (g : Grid) : ExtendsG g g := fun _ _ _ h => h

theorem extendsG_trans {a b c : Grid} (h1 : ExtendsG a b) (h2 : ExtendsG b c) :
    ExtendsG a c := fun r cc v h => h2 r cc v (h1 r cc v h)

theorem extendsG_iff {p s : Grid} :
    ExtendsG p s ↔ ∀ r c, p r c = none ∨ p r c = s r c := by
  constructor
  · intro h r c
    cases hp : p r c with
    | none => exact Or.inl rfl
    | some v => exact Or.inr (h r c v hp).symm
  · intro h r c v hv
    rcases h r c with h' | h'
    · rw [hv] at h'; cases h'
    · rw [← h', hv]

theorem extendsG_setCell_some {g : Grid} {r c : Fin 6} {v : Nat}
    (h : g r c = none) : ExtendsG g (setCell g r c (some v)) := by
  intro r' c' w hw
  by_cases he : r' = r ∧ c' = c
  · rw [he.1, he.2] at hw
    rw [h] at hw
    cases hw
  · rw [setCell_ne _ _ _ _ he]
    exact hw

theorem extendsG_setCell_none {g : Grid} {r c : Fin 6} :
    ExtendsG (setCell g r c none) g := by
  intro r' c' w hw
  by_cases he : r' = r ∧ c' = c
  · rw [he.1, he.2, setCell_same] at hw
    cases hw
  · rw [setCell_ne _ _ _ _ he] at hw
    exact hw

theorem extendsG_setCell_mono {p s : Grid} {r c : Fin 6} {v : Nat}
    (hps : ExtendsG p s) (hs : s r c = some v) :
    ExtendsG (setCell p r c (some v)) s := by
  intro r' c' w hw
  by_cases he : r' = r ∧ c' = c
  · rw [he.1, he.2, setCell_same] at hw
    cases hw
    rw [he.1, he.2]
    exact hs
  · rw [setCell_ne _ _ _ _ he] at hw
    exact hps r' c' w hw

theorem eq_of_fullGrid_extendsG {g s : Grid} (hf : FullGrid g)
    (he : ExtendsG g s) : s = g := by
  funext r c
  obtain ⟨v, hv⟩ := Option.isSome_iff_exists.1 (hf r c)
  rw [hv, he r c v hv]

theorem filterMap_id_sublist_of_forall₂ {l₁ l₂ : List Cell}
    (h : List.Forall₂ (fun a b => a = none ∨ a = b) l₁ l₂) :
    (l₁.filterMap id).Sublist (l₂.filterMap id) := by
  induction h with
  | nil => simp
  | @cons a b l₁' l₂' hab _ ih =>
    rcases hab with rfl | rfl
    · cases b with
      | none => simpa using ih
      | some w =>
        simp only [List.filterMap_cons, id_eq]
        exact ih.cons w
    · cases a with
      | none => simpa using ih
      | some w =>
        simp only [List.filterMap_cons, id_eq]
        exact ih.cons₂ w

theorem isValidGrid_of_extends {p s : Grid} (h : ExtendsG p s)
    (hs : isValidGrid s = true) : isValidGrid p = true := by
  have hpt := extendsG_iff.1 h
  rw [isValidGrid_iff] at hs ⊢
  obtain ⟨hr, hc, hb⟩ := hs
  have key : ∀ (u₁ u₂ : List Cell),
      List.Forall₂ (fun a b => a = none ∨ a = b) u₁ u₂ →
      isValidUnit u₂ = true → isValidUnit u₁ = true := by
    intro u₁ u₂ hf hu
    exact isValidUnit_iff.2
      ((filterMap_id_sublist_of_forall₂ hf).nodup (isValidUnit_iff.1 hu))
  refine ⟨fun r => key _ _ ?_ (hr r), fun c => key _ _ ?_ (hc c),
    fun b => key _ _ ?_ (hb b)⟩
  · rw [rowCells, rowCells, List.forall₂_map_right_iff, List.forall₂_map_left_iff]
    exact List.forall₂_same.2 fun c _ => hpt r c
  · rw [colCells, colCells, List.forall₂_map_right_iff, List.forall₂_map_left_iff]
    exact List.forall₂_same.2 fun r _ => hpt r c
  · rw [boxCells_eq_map, boxCells_eq_map, List.forall₂_map_right_iff,
      List.forall₂_map_left_iff]
    exact List.forall₂_same.2 fun p _ => hpt p.1 p.2

theorem rowCells_setCell_ne {g : Grid} {r c : Fin 6} {v : Cell} {r' : Fin 6}
    (h : r' ≠ r) : rowCells (setCell g r c v) r' = rowCells g r' := by
  unfold rowCells
  exact List.map_congr_left fun c' _ => setCell_ne _ _ _ _ (fun hc => h hc.1)

theorem colCells_setCell_ne {g : Grid} {r c : Fin 6} {v : Cell} {c' : Fin 6}
    (h : c' ≠ c) : colCells (setCell g r c v) c' = colCells g c' := by
  unfold colCells
  exact List.map_congr_left fun r' _ => setCell_ne _ _ _ _ (fun hc => h hc.2)

theorem boxCells_setCell_ne {g : Grid} {r c : Fin 6} {v : Cell}
    {b : Fin 3 × Fin 2} (h : b ≠ boxIdx r c) :
    boxCells (setCell g r c v) b = boxCells g b := by
  rw [boxCells_eq_map, boxCells_eq_map]
  refine List.map_congr_left fun p hp => setCell_ne _ _ _ _ fun hpe => ?_
  have hb := mem_boxPositions.1 hp
  rw [hpe.1, hpe.2] at hb
  exact h hb.symm

theorem isValidMove_range {g : Grid} {r c : Fin 6} {v : Nat}
    (h : isValidMove g r c v = true) : 1 ≤ v ∧ v ≤ 6 := by
  by_contra hc
  have : (v < 1 || 6 < v) = true := by
    simp only [Bool.or_eq_true, decide_eq_true_eq]
    omega
  rw [isValidMove, if_pos this] at h
  cases h

theorem isValidMove_of_valid_set {g : Grid} {r c : Fin 6} {v : Nat}
    (hv1 : 1 ≤ v) (hv2 : v ≤ 6)
    (h : isValidGrid (setCell g r c (some v)) = true) :
    isValidMove g r c v = true := by
  obtain ⟨hr, hc, hb⟩ := isValidGrid_iff.1 h
  rw [isValidMove, if_neg (by simp; omega)]
  simp only [Bool.and_eq_true]
  exact ⟨⟨hr r, hc c⟩, hb (boxIdx r c)⟩

theorem valid_set_of_isValidMove {g : Grid} {r c : Fin 6} {v : Nat}
    (hg : isValidGrid g = true) (h : isValidMove g r c v = true) :
    isValidGrid (setCell g r c (some v)) = true := by
  obtain ⟨hv1, hv2⟩ := isValidMove_range h
  rw [isValidMove, if_neg (by simp; omega)] at h
  simp only [Bool.and_eq_true] at h
  obtain ⟨⟨hrow, hcol⟩, hbox⟩ := h
  obtain ⟨hr, hc, hb⟩ := isValidGrid_iff.1 hg
  refine isValidGrid_iff.2 ⟨fun r' => ?_, fun c' => ?_, fun b => ?_⟩
  · by_cases he : r' = r
    · rw [he]; exact hrow
    · rw [rowCells_setCell_ne he]; exact hr r'
  · by_cases he : c' = c
    · rw [he]; exact hcol
    · rw [colCells_setCell_ne he]; exact hc c'
  · by_cases he : b = boxIdx r c
    · rw [he]; exact hbox
    · rw [boxCells_setCell_ne he]; exact hb b

theorem isValidMove_of_completion {p s : Grid} {r c : Fin 6} {v : Nat}
    (hcomp : Completion p s) (hs : s r c = some v) :
    isValidMove p r c v = true := by
  obtain ⟨hfull2, hir, hval, hext⟩ := hcomp
  obtain ⟨hv1, hv2⟩ := hir r c v hs
  refine isValidMove_of_valid_set hv1 hv2 ?_
  exact isValidGrid_of_extends (extendsG_setCell_mono hext hs) hval

theorem inRange_setCell {g : Grid} {r c : Fin 6} {v : Nat}
    (hg : InRange g) (hv1 : 1 ≤ v) (hv2 : v ≤ 6) :
    InRange (setCell g r c (some v)) := by
  intro r' c' w hw
  by_cases he : r' = r ∧ c' = c
  · rw [he.1, he.2, setCell_same] at hw
    cases hw
    exact ⟨hv1, hv2⟩
  · rw [setCell_ne _ _ _ _ he] at hw
    exact hg r' c' w hw

theorem filterMap_id_length_of_all_isSome {l : List Cell}
    (h : ∀ x ∈ l, x.isSome) : (l.filterMap id).length = l.length := by
  induction l with
  | nil => rfl
  | cons x xs ih =>
    obtain ⟨v, hv⟩ := Option.isSome_iff_exists.1 (h x (List.mem_cons_self x xs))
    rw [hv]
    simp only [List.filterMap_cons, id_eq, List.length_cons]
    rw [ih fun y hy => h y (List.mem_cons_of_mem x hy)]

theorem rowVals_perm_vals16 {g : Grid} (hfull : FullGrid g) (hir : InRange g)
    (hval : isValidGrid g = true) (r : Fin 6) :
    ((rowCells g r).filterMap id).Perm vals16 := by
  have hnd : ((rowCells g r).filterMap id).Nodup :=
    isValidUnit_iff.1 ((isValidGrid_iff.1 hval).1 r)
  have hsub : (rowCells g r).filterMap id ⊆ vals16 := by
    intro v hv
    obtain ⟨c, hc⟩ := mem_filterMap_rowCells.1 hv
    exact mem_vals16.2 (hir r c v hc)
  have hlen : ((rowCells g r).filterMap id).length = 6 := by
    rw [filterMap_id_length_of_all_isSome]
    · simp [rowCells]
    · intro x hx
      simp only [rowCells, List.mem_map] at hx
      obtain ⟨c, -, rfl⟩ := hx
      exact hfull r c
  exact (List.subperm_of_subset hnd hsub).perm_of_length_le (by simp [vals16, hlen])

theorem colVals_perm_vals16 {g : Grid} (hfull : FullGrid g) (hir : InRange g)
    (hval : isValidGrid g = true) (c : Fin 6) :
    ((colCells g c).filterMap id).Perm vals16 := by
  have hnd : ((colCells g c).filterMap id).Nodup :=
    isValidUnit_iff.1 ((isValidGrid_iff.1 hval).2.1 c)
  have hsub : (colCells g c).filterMap id ⊆ vals16 := by
    intro v hv
    obtain ⟨r, hr⟩ := mem_filterMap_colCells.1 hv
    exact mem_vals16.2 (hir r c v hr)
  have hlen : ((colCells g c).filterMap id).length = 6 := by
    rw [filterMap_id_length_of_all_isSome]
    · simp [colCells]
    · intro x hx
      simp only [colCells, List.mem_map] at hx
      obtain ⟨r, -, rfl⟩ := hx
      exact hfull r c
  exact (List.subperm_of_subset hnd hsub).perm_of_length_le (by simp [vals16, hlen])

theorem boxVals_perm_vals16 {g : Grid} (hfull : FullGrid g) (hir : InRange g)
    (hval : isValidGrid g = true) (b : Fin 3 × Fin 2) :
    ((boxCells g b).filterMap id).Perm vals16 := by
  have hnd : ((boxCells g b).filterMap id).Nodup :=
    isValidUnit_iff.1 ((isValidGrid_iff.1 hval).2.2 b)
  have hsub : (boxCells g b).filterMap id ⊆ vals16 := by
    intro v hv
    obtain ⟨r, c, -, hc⟩ := mem_filterMap_boxCells.1 hv
    exact mem_vals16.2 (hir r c v hc)
  have hlen : ((boxCells g b).filterMap id).length = 6 := by
    rw [filterMap_id_length_of_all_isSome]
    · rw [boxCells_eq_map]
      simp [boxPositions, Function.comp_def]
    · intro x hx
      rw [boxCells_eq_map] at hx
      simp only [List.mem_map] at hx
      obtain ⟨p, -, rfl⟩ := hx
      exact hfull p.1 p.2
  exact (List.subperm_of_subset hnd hsub).perm_of_length_le (by simp [vals16, hlen])

theorem posCell_spec (pos : Nat) (h : pos < 36) :
    ((posCell pos h).1.val * 6 + (posCell pos h).2.val = pos) := by
  simp only [posCell]
  omega

theorem posCell_unique {pos : Nat} (h : pos < 36) {r c : Fin 6}
    (hrc : r.val * 6 + c.val = pos) :
    r = (posCell pos h).1 ∧ c = (posCell pos h).2 := by
  have hr := r.isLt
  have hc := c.isLt
  simp only [posCell]
  constructor
  · apply Fin.ext
    simp only
    omega
  · apply Fin.ext
    simp only
    omega

theorem mem_enumVals {g : Grid} {r c : Fin 6} {pos' : Nat} {vs : List Nat}
    {s : Grid} :
    s ∈ enumVals g r c pos' vs ↔
      ∃ v ∈ vs, isValidMove g r c v = true ∧
        s ∈ enumSolve (setCell g r c (some v)) pos' := by
  induction vs with
  | nil =>
    rw [enumVals]
    simp
  | cons v rest ih =>
    rw [enumVals]
    simp only [List.mem_append, ih]
    constructor
    · rintro (hs | ⟨w, hw, hvm, hsw⟩)
      · by_cases hv : isValidMove g r c v = true
        · rw [if_pos hv] at hs
          exact ⟨v, List.mem_cons_self v rest, hv, hs⟩
        · rw [if_neg hv] at hs
          cases hs
      · exact ⟨w, List.mem_cons_of_mem v hw, hvm, hsw⟩
    · rintro ⟨w, hw, hvm, hsw⟩
      rcases List.mem_cons.1 hw with rfl | hw'
      · exact Or.inl (by rw [if_pos hvm]; exact hsw)
      · exact Or.inr ⟨w, hw', hvm, hsw⟩

theorem enumSolve_sound (fuel : Nat) :
    ∀ (pos : Nat) (g : Grid), 36 - pos ≤ fuel →
    isValidGrid g = true → InRange g →
    (∀ r c : Fin 6, r.val * 6 + c.val < pos → (g r c).isSome) →
    ∀ s ∈ enumSolve g pos, Completion g s := by
  induction fuel with
  | zero =>
    intro pos g hfuel hval hir hpre s hs
    rw [enumSolve, dif_neg (by omega)] at hs
    rcases List.mem_singleton.1 hs with rfl
    exact ⟨fun r c => hpre r c (by have := r.isLt; have := c.isLt; omega),
      hir, hval, extendsG_refl _⟩
  | succ n ih =>
    intro pos g hfuel hval hir hpre s hs
    by_cases hpos : pos < 36
    · rw [enumSolve, dif_pos hpos] at hs
      have hpre1 : ∀ (v : Nat) (r c : Fin 6),
          (g r c = none → False) ∨ (r = (posCell pos hpos).1 ∧ c = (posCell pos hpos).2) →
          True := fun _ _ _ _ => trivial
      cases hcell : g (posCell pos hpos).1 (posCell pos hpos).2 with
      | some w =>
        simp only [hcell] at hs
        refine ih (pos + 1) g (by omega) hval hir ?_ s hs
        intro r c hrc
        by_cases he : r.val * 6 + c.val = pos
        · obtain ⟨hr, hc⟩ := posCell_unique hpos he
          rw [hr, hc, hcell]
          rfl
        · exact hpre r c (by omega)
      | none =>
        simp only [hcell] at hs
        obtain ⟨v, hv, hvm, hsv⟩ := mem_enumVals.1 hs
        obtain ⟨hv1, hv2⟩ := isValidMove_range hvm
        have hvalset := valid_set_of_isValidMove hval hvm
        have hirset : InRange
            (setCell g (posCell pos hpos).1 (posCell pos hpos).2 (some v)) :=
          inRange_setCell hir hv1 hv2
        have hcomp : Completion (setCell g (posCell pos hpos).1 (posCell pos hpos).2 (some v)) s := by
          refine ih (pos + 1) _ (by omega) hvalset hirset ?_ s hsv
          intro r c hrc
          by_cases he : r.val * 6 + c.val = pos
          · obtain ⟨hr, hc⟩ := posCell_unique hpos he
            rw [hr, hc, setCell_same]
            rfl
          · rw [setCell_ne _ _ _ _ ?hne]
            · exact hpre r c (by omega)
            case hne =>
              rintro ⟨rfl, rfl⟩
              exact he (posCell_spec pos hpos)
        obtain ⟨hfull, hirs, hvals, hext⟩ := hcomp
        exact ⟨hfull, hirs, hvals,
          extendsG_trans (extendsG_setCell_some hcell) hext⟩
    · rw [enumSolve, dif_neg hpos] at hs
      rcases List.mem_singleton.1 hs with rfl
      exact ⟨fun r c => hpre r c (by have := r.isLt; have := c.isLt; omega),
        hir, hval, extendsG_refl _⟩

theorem enumSolve_complete (fuel : Nat) :
    ∀ (pos : Nat) (g : Grid), 36 - pos ≤ fuel →
    (∀ r c : Fin 6, r.val * 6 + c.val < pos → (g r c).isSome) →
    ∀ s, Completion g s → s ∈ enumSolve g pos := by
  induction fuel with
  | zero =>
    intro pos g hfuel hpre s hcomp
    rw [enumSolve, dif_neg (by omega)]
    have hfull : FullGrid g := fun r c =>
      hpre r c (by have := r.isLt; have := c.isLt; omega)
    rw [eq_of_fullGrid_extendsG hfull hcomp.2.2.2]
    exact List.mem_singleton.2 rfl
  | succ n ih =>
    intro pos g hfuel hpre s hcomp
    by_cases hpos : pos < 36
    · rw [enumSolve, dif_pos hpos]
      cases hcell : g (posCell pos hpos).1 (posCell pos hpos).2 with
      | some w =>
        simp only [hcell]
        refine ih (pos + 1) g (by omega) ?_ s hcomp
        intro r c hrc
        by_cases he : r.val * 6 + c.val = pos
        · obtain ⟨hr, hc⟩ := posCell_unique hpos he
          rw [hr, hc, hcell]
          rfl
        · exact hpre r c (by omega)
      | none =>
        simp only [hcell]
        obtain ⟨hfull, hir, hval, hext⟩ := hcomp
        obtain ⟨w, hw⟩ := Option.isSome_iff_exists.1
          (hfull (posCell pos hpos).1 (posCell pos hpos).2)
        have hvm : isValidMove g (posCell pos hpos).1 (posCell pos hpos).2 w = true :=
          isValidMove_of_completion ⟨hfull, hir, hval, hext⟩ hw
        refine mem_enumVals.2 ⟨w, mem_vals16.2 (hir _ _ w hw), hvm, ?_⟩
        refine ih (pos + 1) _ (by omega) ?_ s
          ⟨hfull, hir, hval, extendsG_setCell_mono hext hw⟩
        intro r c hrc
        by_cases he : r.val * 6 + c.val = pos
        · obtain ⟨hr, hc⟩ := posCell_unique hpos he
          rw [hr, hc, setCell_same]
          rfl
        · rw [setCell_ne _ _ _ _ ?hne2]
          · exact hpre r c (by omega)
          case hne2 =>
            rintro ⟨rfl, rfl⟩
            exact he (posCell_spec pos hpos)
    · rw [enumSolve, dif_neg hpos]
      have hfull : FullGrid g := fun r c =>
        hpre r c (by have := r.isLt; have := c.isLt; omega)
      rw [eq_of_fullGrid_extendsG hfull hcomp.2.2.2]
      exact List.mem_singleton.2 rfl

theorem enumSolve_nodup (fuel : Nat) :
    ∀ (pos : Nat) (g : Grid), 36 - pos ≤ fuel →
    isValidGrid g = true → InRange g →
    (∀ r c : Fin 6, r.val * 6 + c.val < pos → (g r c).isSome) →
    (enumSolve g pos).Nodup := by
  induction fuel with
  | zero =>
    intro pos g hfuel hval hir hpre
    rw [enumSolve, dif_neg (by omega)]
    exact List.nodup_singleton g
  | succ n ih =>
    intro pos g hfuel hval hir hpre
    by_cases hpos : pos < 36
    · rw [enumSolve, dif_pos hpos]
      have hprestep : ∀ (w : Nat),
          ∀ r c : Fin 6, r.val * 6 + c.val < pos + 1 →
          ((setCell g (posCell pos hpos).1 (posCell pos hpos).2 (some w)) r c).isSome := by
        intro w r c hrc
        by_cases he : r.val * 6 + c.val = pos
        · obtain ⟨hr, hc⟩ := posCell_unique hpos he
          rw [hr, hc, setCell_same]
          rfl
        · rw [setCell_ne _ _ _ _ ?hne3]
          · exact hpre r c (by omega)
          case hne3 =>
            rintro ⟨rfl, rfl⟩
            exact he (posCell_spec pos hpos)
      cases hcell : g (posCell pos hpos).1 (posCell pos hpos).2 with
      | some w =>
        simp only [hcell]
        refine ih (pos + 1) g (by omega) hval hir ?_
        intro r c hrc
        by_cases he : r.val * 6 + c.val = pos
        · obtain ⟨hr, hc⟩ := posCell_unique hpos he
          rw [hr, hc, hcell]
          rfl
        · exact hpre r c (by omega)
      | none =>
        simp only [hcell]
        have key : ∀ vs : List Nat, vs.Nodup →
            (enumVals g (posCell pos hpos).1 (posCell pos hpos).2 (pos + 1) vs).Nodup := by
          intro vs
          induction vs with
          | nil =>
            intro _
            rw [enumVals]
            exact List.nodup_nil
          | cons v rest ihv =>
            intro hnd
            rw [enumVals]
            rw [List.nodup_append]
            obtain ⟨hvnotin, hrestnd⟩ := List.nodup_cons.1 hnd
            refine ⟨?_, ihv hrestnd, ?_⟩
            · by_cases hvm : isValidMove g (posCell pos hpos).1 (posCell pos hpos).2 v = true
              · rw [if_pos hvm]
                obtain ⟨hv1, hv2⟩ := isValidMove_range hvm
                exact ih (pos + 1) _ (by omega)
                  (valid_set_of_isValidMove hval hvm)
                  (inRange_setCell hir hv1 hv2) (hprestep v)
              · rw [if_neg hvm]
                exact List.nodup_nil
            · intro s hsl hsr
              by_cases hvm : isValidMove g (posCell pos hpos).1 (posCell pos hpos).2 v = true
              · rw [if_pos hvm] at hsl
                obtain ⟨hv1, hv2⟩ := isValidMove_range hvm
                have hcompv := enumSolve_sound n (pos + 1) _ (by omega)
                  (valid_set_of_isValidMove hval hvm)
                  (inRange_setCell hir hv1 hv2) (hprestep v) s hsl
                have hsv : s (posCell pos hpos).1 (posCell pos hpos).2 = some v :=
                  hcompv.2.2.2 _ _ v (setCell_same ..)
                obtain ⟨w, hw, hwm, hsw⟩ := mem_enumVals.1 hsr
                obtain ⟨hw1, hw2⟩ := isValidMove_range hwm
                have hcompw := enumSolve_sound n (pos + 1) _ (by omega)
                  (valid_set_of_isValidMove hval hwm)
                  (inRange_setCell hir hw1 hw2) (hprestep w) s hsw
                have hswv : s (posCell pos hpos).1 (posCell pos hpos).2 = some w :=
                  hcompw.2.2.2 _ _ w (setCell_same ..)
                rw [hsv] at hswv
                cases hswv
                exact hvnotin hw
              · rw [if_neg hvm] at hsl
                cases hsl
        exact key vals16 vals16_nodup
    · rw [enumSolve, dif_neg hpos]
      exact List.nodup_singleton g

theorem solveAll_take :
    ∀ (fuel pos : Nat) (g : Grid) (max : Nat) (acc : List Grid),
      36 - pos < fuel →
      solveAll fuel max g pos acc =
        acc ++ (enumSolve g pos).take (max - acc.length) := by
  intro fuel
  induction fuel with
  | zero =>
    intro pos g max acc hfuel
    omega
  | succ n ih =>
    intro pos g max acc hfuel
    by_cases hcap : max ≤ acc.length
    · rw [solveAll, if_pos hcap]
      have h0 : max - acc.length = 0 := by omega
      rw [h0]
      simp
    · by_cases hpos : pos < 36
      · rw [solveAll, if_neg hcap, dif_pos hpos]
        cases hcell : g (posCell pos hpos).1 (posCell pos hpos).2 with
        | some w =>
          simp only [hcell]
          conv_rhs => rw [enumSolve, dif_pos hpos]
          simp only [hcell]
          exact ih (pos + 1) g max acc (by omega)
        | none =>
          simp only [hcell]
          conv_rhs => rw [enumSolve, dif_pos hpos]
          simp only [hcell]
          have key : ∀ (vs : List Nat) (a : List Grid),
              vs.foldl (fun a v =>
                if isValidMove g (posCell pos hpos).1 (posCell pos hpos).2 v then
                  solveAll n max
                    (setCell g (posCell pos hpos).1 (posCell pos hpos).2 (some v))
                    (pos + 1) a
                else a) a =
              a ++ (enumVals g (posCell pos hpos).1 (posCell pos hpos).2
                (pos + 1) vs).take (max - a.length) := by
            intro vs
            induction vs with
            | nil =>
              intro a
              rw [enumVals]
              simp
            | cons v rest ihv =>
              intro a
              rw [enumVals, List.foldl_cons]
              by_cases hvm : isValidMove g (posCell pos hpos).1 (posCell pos hpos).2 v = true
              · simp only [if_pos hvm]
                rw [ihv, ih (pos + 1) _ max a (by omega)]
                rw [List.take_append_eq_append_take, List.append_assoc]
                congr 2
                rw [List.length_append, List.length_take]
                congr 1
                omega
              · simp only [if_neg hvm]
                rw [ihv]
                simp
          exact key vals16 acc
      · rw [solveAll, if_neg hcap, dif_neg hpos, enumSolve, dif_neg hpos]
        have h1 : max - acc.length = (max - acc.length - 1) + 1 := by omega
        rw [h1]
        simp

theorem findAllSolutions_eq_take (g : Grid) (max : Nat) :
    findAllSolutions g max = (enumSolve g 0).take max := by
  rw [findAllSolutions, solveAll_take 37 0 g max [] (by omega)]
  simp

theorem hasUniqueSolution_iff {p e : Grid} (hval : isValidGrid p = true)
    (hir : InRange p) :
    hasUniqueSolution p e = true ↔
      (Completion p e ∧ ∀ s, Completion p s → s = e) := by
  have hpre : ∀ r c : Fin 6, r.val * 6 + c.val < 0 → ((p r c).isSome) :=
    fun r c h => absurd h (Nat.not_lt_zero _)
  have hsound := enumSolve_sound 36 0 p (by omega) hval hir hpre
  have hcompl := enumSolve_complete 36 0 p (by omega) hpre
  have hnd := enumSolve_nodup 36 0 p (by omega) hval hir hpre
  rw [hasUniqueSolution, findAllSolutions_eq_take]
  cases henum : enumSolve p 0 with
  | nil =>
    simp only [List.take_nil]
    constructor
    · intro h
      cases h
    · rintro ⟨hc, -⟩
      have := hcompl e hc
      rw [henum] at this
      cases this
  | cons s t =>
    cases t with
    | nil =>
      simp only [List.take_succ_cons, List.take_nil]
      constructor
      · intro h
        have hse : s = e := by
          simpa using h
        subst hse
        refine ⟨hsound s (by rw [henum]; exact List.mem_cons_self s []), ?_⟩
        intro s' hs'
        have := hcompl s' hs'
        rw [henum] at this
        simpa using this
      · rintro ⟨hc, -⟩
        have := hcompl e hc
        rw [henum] at this
        have hse : e = s := by simpa using this
        simp [hse]
    | cons s2 t2 =>
      simp only [List.take_succ_cons, List.take_nil]
      constructor
      · intro h
        cases h
      · rintro ⟨hc, huniq⟩
        have hs : Completion p s :=
          hsound s (by rw [henum]; exact List.mem_cons_self _ _)
        have hs2 : Completion p s2 := by
          refine hsound s2 ?_
          rw [henum]
          exact List.mem_cons_of_mem _ (List.mem_cons_self _ _)
        have h1 := huniq s hs
        have h2 := huniq s2 hs2
        rw [henum] at hnd
        have : s ≠ s2 := by
          intro he
          exact (List.nodup_cons.1 hnd).1 (he ▸ List.mem_cons_self s2 t2)
        exact absurd (h1.trans h2.symm) this

theorem listSwap_perm {α : Type} [DecidableEq α] (l : List α) (i j : Nat) :
    (listSwap l i j).Perm l := by
  unfold listSwap
  cases hi : l[i]? with
  | none => exact List.Perm.refl l
  | some a =>
    cases hj : l[j]? with
    | none => exact List.Perm.refl l
    | some b =>
      have hil : i < l.length := by
        by_contra hc
        rw [List.getElem?_eq_none (by omega)] at hi
        cases hi
      have hjl : j < l.length := by
        by_contra hc
        rw [List.getElem?_eq_none (by omega)] at hj
        cases hj
      have hgi : l[i] = a := by
        have h := List.getElem?_eq_getElem hil
        rw [hi] at h
        exact Option.some_inj.1 h.symm
      have hgj : l[j] = b := by
        have h := List.getElem?_eq_getElem hjl
        rw [hj] at h
        exact Option.some_inj.1 h.symm
      rw [List.perm_iff_count]
      intro x
      have hjl2 : j < (l.set i b).length := by
        rw [List.length_set]
        exact hjl
      rw [List.count_set a x _ j hjl2, List.count_set b x l i hil]
      have hset : (l.set i b)[j] = b := by
        rw [List.getElem_set]
        split
        · rfl
        · exact hgj
      rw [hset]
      have hmem_a : a = x → 1 ≤ List.count x l := by
        intro hax
        exact List.count_pos_iff.2 (hax ▸ hgi ▸ List.getElem_mem hil)
      have hmem_b : b = x → 1 ≤ List.count x l := by
        intro hbx
        exact List.count_pos_iff.2 (hbx ▸ hgj ▸ List.getElem_mem hjl)
      rw [hgi]
      simp only [beq_iff_eq]
      split_ifs with hax hbx hbx2
      · have := hmem_a hax
        omega
      · have := hmem_a hax
        omega
      · have := hmem_b hbx2
        omega
      · omega

theorem shuffleGo_perm {α : Type} [DecidableEq α] (rnd : Rnd) :
    ∀ (i : Nat) (l : List α) (k : Nat), ((shuffleGo rnd l k i).1).Perm l := by
  intro i
  induction i with
  | zero =>
    intro l k
    exact List.Perm.refl l
  | succ n ih =>
    intro l k
    rw [shuffleGo]
    exact (ih _ _).trans (listSwap_perm l (n + 1) (rnd k % (n + 2)))

theorem shuffleArray_perm {α : Type} [DecidableEq α] (l : List α)
    (rnd : Rnd) (k : Nat) : ((shuffleArray l rnd k).1).Perm l :=
  shuffleGo_perm rnd (l.length - 1) l k

theorem findFirstEmptyCell_none {g : Grid} (h : findFirstEmptyCell g = none) :
    FullGrid g := by
  intro r c
  have h2 := List.find?_eq_none.1 h (r, c) (mem_allCells (r, c))
  simp only [Option.isNone_iff_eq_none, Bool.not_eq_true] at h2
  exact Option.isSome_iff_ne_none.2 (by simpa using h2)

theorem findFirstEmptyCell_some {g : Grid} {p : Fin 6 × Fin 6}
    (h : findFirstEmptyCell g = some p) : g p.1 p.2 = none := by
  have := List.find?_some h
  simpa using this

theorem emptyCount_setCell_lt {g : Grid} {r c : Fin 6} {v : Nat}
    (h : g r c = none) :
    emptyCount (setCell g r c (some v)) < emptyCount g := by
  apply Finset.card_lt_card
  constructor
  · intro p hp
    simp only [Finset.mem_filter, Finset.mem_univ, true_and] at hp ⊢
    by_cases hpe : p.1 = r ∧ p.2 = c
    · exfalso
      simp [setCell, hpe.1, hpe.2] at hp
    · simpa [setCell, hpe] using hp
  · intro hsub
    have hrc : (r, c) ∈ (Finset.univ.filter
        fun p : Fin 6 × Fin 6 => g p.1 p.2 = none) := by
      simp [h, emptyCount]
    have := hsub hrc
    simp [setCell] at this

theorem fillGrid_sound (fuel : Nat) :
    ∀ (g : Grid) (rnd : Rnd) (k : Nat), emptyCount g ≤ fuel →
    isValidGrid g = true → InRange g →
    ∀ (g' : Grid) (k' : Nat), fillGrid g rnd k = (some g', k') →
    Completion g g' := by
  induction fuel with
  | zero =>
    intro g rnd k hfuel hval hir g' k' heq
    rw [fillGrid] at heq
    split at heq
    case h_1 hf =>
      injection heq with h1 h2
      injection h1 with h1
      subst h1
      exact ⟨findFirstEmptyCell_none hf, hir, hval, extendsG_refl _⟩
    case h_2 p hf =>
      exfalso
      have hcell := findFirstEmptyCell_some hf
      have : (p.1, p.2) ∈ (Finset.univ.filter
          fun q : Fin 6 × Fin 6 => g q.1 q.2 = none) := by
        simp [hcell]
      have hpos : 0 < emptyCount g := Finset.card_pos.2 ⟨(p.1, p.2), this⟩
      omega
  | succ n ih =>
    intro g rnd k hfuel hval hir g' k' heq
    rw [fillGrid] at heq
    split at heq
    case h_1 hf =>
      injection heq with h1 h2
      injection h1 with h1
      subst h1
      exact ⟨findFirstEmptyCell_none hf, hir, hval, extendsG_refl _⟩
    case h_2 p hf =>
      have hcell := findFirstEmptyCell_some hf
      -- the inner value loop
      have key : ∀ (vs : List Nat) (k0 : Nat),
          fillTry g p.1 p.2 hcell rnd vs k0 = (some g', k') →
          Completion g g' := by
        intro vs
        induction vs with
        | nil =>
          intro k0 htry
          rw [fillTry] at htry
          injection htry with h1 h2
          cases h1
        | cons m rest ihv =>
          intro k0 htry
          rw [fillTry] at htry
          by_cases hvm : isValidMove g p.1 p.2 m = true
          · rw [if_pos hvm] at htry
            rcases hfg : fillGrid (setCell g p.1 p.2 (some m)) rnd k0 with ⟨og, k₂⟩
            rw [hfg] at htry
            cases og with
            | some g₂ =>
              simp only at htry
              injection htry with h1 h2
              injection h1 with h1
              subst h1
              obtain ⟨hm1, hm2⟩ := isValidMove_range hvm
              have hcomp := ih (setCell g p.1 p.2 (some m)) rnd k0
                (by have := @emptyCount_setCell_lt _ _ _ m hcell; omega)
                (valid_set_of_isValidMove hval hvm)
                (inRange_setCell hir hm1 hm2) g₂ k₂ hfg
              obtain ⟨hfull2, hir2, hval2, hext2⟩ := hcomp
              exact ⟨hfull2, hir2, hval2,
                extendsG_trans (extendsG_setCell_some hcell) hext2⟩
            | none =>
              simp only at htry
              exact ihv k₂ htry
          · rw [if_neg hvm] at htry
            exact ihv k0 htry
      exact key (shuffleArray vals16 rnd k).1 (shuffleArray vals16 rnd k).2 heq

theorem fillGrid_complete (fuel : Nat) :
    ∀ (g : Grid) (rnd : Rnd) (k : Nat), emptyCount g ≤ fuel →
    isValidGrid g = true → InRange g →
    (∃ s, Completion g s) →
    ((fillGrid g rnd k).1).isSome := by
  induction fuel with
  | zero =>
    intro g rnd k hfuel hval hir hex
    rw [fillGrid]
    split
    · rfl
    case h_2 p hf =>
      exfalso
      have hcell := findFirstEmptyCell_some hf
      have hmem : (p.1, p.2) ∈ (Finset.univ.filter
          fun q : Fin 6 × Fin 6 => g q.1 q.2 = none) := by
        simp [hcell]
      have hpos : 0 < emptyCount g := Finset.card_pos.2 ⟨(p.1, p.2), hmem⟩
      omega
  | succ n ih =>
    intro g rnd k hfuel hval hir hex
    rw [fillGrid]
    split
    · rfl
    case h_2 p hf =>
      have hcell := findFirstEmptyCell_some hf
      obtain ⟨s, hcomp⟩ := hex
      obtain ⟨hfull, hirs, hvals, hext⟩ := hcomp
      obtain ⟨v₀, hv₀⟩ := Option.isSome_iff_exists.1 (hfull p.1 p.2)
      have hv₀m : isValidMove g p.1 p.2 v₀ = true :=
        isValidMove_of_completion ⟨hfull, hirs, hvals, hext⟩ hv₀
      have hv₀s : ∃ s', Completion (setCell g p.1 p.2 (some v₀)) s' :=
        ⟨s, hfull, hirs, hvals, extendsG_setCell_mono hext hv₀⟩
      have key : ∀ (vs : List Nat) (k0 : Nat),
          (∃ v ∈ vs, isValidMove g p.1 p.2 v = true ∧
            ∃ s', Completion (setCell g p.1 p.2 (some v)) s') →
          ((fillTry g p.1 p.2 hcell rnd vs k0).1).isSome := by
        intro vs
        induction vs with
        | nil =>
          intro k0 hwit
          obtain ⟨v, hv, -⟩ := hwit
          cases hv
        | cons m rest ihv =>
          intro k0 hwit
          rw [fillTry]
          by_cases hvm : isValidMove g p.1 p.2 m = true
          · rw [if_pos hvm]
            rcases hfg : fillGrid (setCell g p.1 p.2 (some m)) rnd k0 with ⟨og, k₂⟩
            cases og with
            | some g₂ =>
              rfl
            | none =>
              simp only
              obtain ⟨v, hv, hvvm, hvs⟩ := hwit
              rcases List.mem_cons.1 hv with rfl | hvrest
              · exfalso
                obtain ⟨hm1, hm2⟩ := isValidMove_range hvm
                have := ih (setCell g p.1 p.2 (some v)) rnd k0
                  (by have := @emptyCount_setCell_lt _ _ _ v hcell; omega)
                  (valid_set_of_isValidMove hval hvm)
                  (inRange_setCell hir hm1 hm2) hvs
                rw [hfg] at this
                cases this
              · exact ihv k₂ ⟨v, hvrest, hvvm, hvs⟩
          · rw [if_neg hvm]
            obtain ⟨v, hv, hvvm, hvs⟩ := hwit
            rcases List.mem_cons.1 hv with rfl | hvrest
            · exact absurd hvvm hvm
            · exact ihv k0 ⟨v, hvrest, hvvm, hvs⟩
      rcases hsh : shuffleArray vals16 rnd k with ⟨nums, k₁⟩
      refine key nums k₁ ⟨v₀, ?_, hv₀m, hv₀s⟩
      have hperm : nums.Perm vals16 := by
        have := shuffleArray_perm vals16 rnd k
        rw [hsh] at this
        exact this
      exact hperm.mem_iff.2 (mem_vals16.2 (hirs p.1 p.2 v₀ hv₀))

set_option maxHeartbeats 1600000 in
theorem generateCompleteSolution_spec (rnd : Rnd) (k : Nat) :
    Completion emptyGrid (generateCompleteSolution rnd k).1 := by
  have hval : isValidGrid emptyGrid = true := by decide
  have hir : InRange emptyGrid := fun r c v h => by cases h
  have hex : ∃ s, Completion emptyGrid s := ⟨gridS0, by decide⟩
  have hsome := fillGrid_complete (emptyCount emptyGrid) emptyGrid rnd k
    le_rfl hval hir hex
  rw [generateCompleteSolution]
  rcases hfg : fillGrid emptyGrid rnd k with ⟨og, k'⟩
  rw [hfg] at hsome
  cases og with
  | none => cases hsome
  | some g' =>
    simp only
    exact fillGrid_sound (emptyCount emptyGrid) emptyGrid rnd k le_rfl
      hval hir g' k' hfg

/-- C2: for every sequence of random choices, the solution synthesizer on
the empty grid succeeds with no outer retry, and every row, column and 3×2
box of the result is a permutation of {1..6}. -/
theorem claim_C2 (rnd : Rnd) (k : Nat) :
    ∃ (g : Grid) (k' : Nat),
      fillGrid emptyGrid rnd k = (some g, k') ∧
      generateCompleteSolution rnd k = (g, k') ∧
      (∀ r, ((rowCells g r).filterMap id).Perm vals16) ∧
      (∀ c, ((colCells g c).filterMap id).Perm vals16) ∧
      (∀ b, ((boxCells g b).filterMap id).Perm vals16) := by
  have hval : isValidGrid emptyGrid = true := by decide
  have hir : InRange emptyGrid := fun r c v h => by cases h
  have hex : ∃ s, Completion emptyGrid s := ⟨gridS0, by decide⟩
  have hsome := fillGrid_complete (emptyCount emptyGrid) emptyGrid rnd k
    le_rfl hval hir hex
  rcases hfg : fillGrid emptyGrid rnd k with ⟨og, k'⟩
  rw [hfg] at hsome
  cases og with
  | none => cases hsome
  | some g =>
    obtain ⟨hfull, hirg, hvalg, -⟩ :=
      fillGrid_sound (emptyCount emptyGrid) emptyGrid rnd k le_rfl
        hval hir g k' hfg
    refine ⟨g, k', rfl, ?_, fun r => rowVals_perm_vals16 hfull hirg hvalg r,
      fun c => colVals_perm_vals16 hfull hirg hvalg c,
      fun b => boxVals_perm_vals16 hfull hirg hvalg b⟩
    rw [generateCompleteSolution, hfg]

theorem inRange_of_extends {p s : Grid} (h : ExtendsG p s) (hs : InRange s) :
    InRange p := fun r c v hv => hs r c v (h r c v hv)

theorem completion_setCell_none_unique {sol : Grid} (hfull : FullGrid sol)
    (hir : InRange sol) (hval : isValidGrid sol = true) (r c : Fin 6) :
    ∀ s, Completion (setCell sol r c none) s → s = sol := by
  intro s hs
  obtain ⟨hsfull, hsir, hsval, hsext⟩ := hs
  have hoff : ∀ r' c', ¬(r' = r ∧ c' = c) → s r' c' = sol r' c' := by
    intro r' c' hne
    obtain ⟨u, hu⟩ := Option.isSome_iff_exists.1 (hfull r' c')
    rw [hu]
    refine hsext r' c' u ?_
    rw [setCell_ne _ _ _ _ hne]
    exact hu
  obtain ⟨v₀, hv₀⟩ := Option.isSome_iff_exists.1 (hfull r c)
  obtain ⟨w, hw⟩ := Option.isSome_iff_exists.1 (hsfull r c)
  have hwv : w = v₀ := by
    by_contra hne
    have hwmem : w ∈ (rowCells sol r).filterMap id := by
      have hperm := rowVals_perm_vals16 hfull hir hval r
      exact hperm.mem_iff.2 (mem_vals16.2 (hsir r c w hw))
    obtain ⟨c', hc'⟩ := mem_filterMap_rowCells.1 hwmem
    have hcc : c' ≠ c := by
      rintro rfl
      rw [hv₀] at hc'
      exact hne (Option.some_inj.1 hc'.symm)
    have hs' : s r c' = some w := by
      rw [hoff r c' (fun hp => hcc hp.2)]
      exact hc'
    have := rowUnit_inj ((isValidGrid_iff.1 hsval).1 r) hw hs'
    exact hcc this.symm
  funext r' c'
  by_cases he : r' = r ∧ c' = c
  · rw [he.1, he.2, hw, hwv, hv₀]
  · exact hoff r' c' he

theorem hasUniqueSolution_single_removal {sol : Grid} (hfull : FullGrid sol)
    (hir : InRange sol) (hval : isValidGrid sol = true) (r c : Fin 6) :
    hasUniqueSolution (setCell sol r c none) sol = true := by
  have hext : ExtendsG (setCell sol r c none) sol := extendsG_setCell_none
  have hpval : isValidGrid (setCell sol r c none) = true :=
    isValidGrid_of_extends hext hval
  have hpir : InRange (setCell sol r c none) := inRange_of_extends hext hir
  rw [hasUniqueSolution_iff hpval hpir]
  exact ⟨⟨hfull, hir, hval, hext⟩,
    completion_setCell_none_unique hfull hir hval r c⟩

theorem hnCandidates_single_removal {sol : Grid} (hfull : FullGrid sol)
    (hir : InRange sol) (hval : isValidGrid sol = true) (r c : Fin 6)
    {v₀ : Nat} (hv₀ : sol r c = some v₀) :
    hnCandidates (setCell sol r c none) r c = [v₀] := by
  have hpc : setCell sol r c none r c = none := setCell_same ..
  rw [hnCandidates, if_neg (by simp [hpc])]
  have hset : (({1, 2, 3, 4, 5, 6} : Finset Nat) \
      (((((rowCells (setCell sol r c none) r).filterMap id).filter
          (fun v => v ≠ 0)).toFinset ∪
        (((colCells (setCell sol r c none) c).filterMap id).filter
          (fun v => v ≠ 0)).toFinset ∪
        (((boxCells (setCell sol r c none) (boxIdx r c)).filterMap id).filter
          (fun v => v ≠ 0)).toFinset))) = {v₀} := by
    apply Finset.ext
    intro u
    simp only [Finset.mem_sdiff, Finset.mem_union, List.mem_toFinset,
      List.mem_filter, Finset.mem_singleton, Finset.mem_insert,
      decide_eq_true_eq]
    constructor
    · rintro ⟨hu16, hnotin⟩
      by_contra hne
      have hu16' : 1 ≤ u ∧ u ≤ 6 := by
        rcases hu16 with h | h | h | h | h | h <;> omega
      have humem : u ∈ (rowCells sol r).filterMap id :=
        (rowVals_perm_vals16 hfull hir hval r).mem_iff.2 (mem_vals16.2 hu16')
      obtain ⟨c', hc'⟩ := mem_filterMap_rowCells.1 humem
      have hcc : c' ≠ c := by
        rintro rfl
        rw [hv₀] at hc'
        exact hne (Option.some_inj.1 hc'.symm)
      have hpin : u ∈ (rowCells (setCell sol r c none) r).filterMap id := by
        refine mem_filterMap_rowCells.2 ⟨c', ?_⟩
        rw [setCell_ne _ _ _ _ (fun hp => hcc hp.2)]
        exact hc'
      exact hnotin (Or.inl (Or.inl ⟨hpin, by omega⟩))
    · rintro rfl
      obtain ⟨h1, h6⟩ := hir r c _ hv₀
      refine ⟨by omega, ?_⟩
      rintro ((⟨hrow, -⟩ | ⟨hcol, -⟩) | ⟨hbox, -⟩)
      · obtain ⟨c', hc'⟩ := mem_filterMap_rowCells.1 hrow
        have hcc : ¬(r = r ∧ c' = c) := by
          rintro ⟨-, rfl⟩
          rw [setCell_same] at hc'
          cases hc'
        rw [setCell_ne _ _ _ _ hcc] at hc'
        have := rowUnit_inj ((isValidGrid_iff.1 hval).1 r) hc' hv₀
        exact (fun hp => hcc ⟨rfl, hp⟩) this
      · obtain ⟨r', hr'⟩ := mem_filterMap_colCells.1 hcol
        have hrr : ¬(r' = r ∧ c = c) := by
          rintro ⟨rfl, -⟩
          rw [setCell_same] at hr'
          cases hr'
        rw [setCell_ne _ _ _ _ hrr] at hr'
        have := colUnit_inj ((isValidGrid_iff.1 hval).2.1 c) hr' hv₀
        exact (fun hp => hrr ⟨hp, rfl⟩) this
      · obtain ⟨r', c', hb', hrc'⟩ := mem_filterMap_boxCells.1 hbox
        have hne : ¬(r' = r ∧ c' = c) := by
          rintro ⟨rfl, rfl⟩
          rw [setCell_same] at hrc'
          cases hrc'
        rw [setCell_ne _ _ _ _ hne] at hrc'
        have := @boxUnit_inj _ _
          ((isValidGrid_iff.1 hval).2.2 (boxIdx r c)) (r', c') (r, c) _
          hb' rfl hrc' hv₀
        exact hne ⟨congrArg Prod.fst this, congrArg Prod.snd this⟩
  simp only [hset]
  obtain ⟨h1, h6⟩ := hir r c v₀ hv₀
  interval_cases v₀ <;> decide

theorem hasNextLogicalMove_single_removal {sol : Grid} (hfull : FullGrid sol)
    (hir : InRange sol) (hval : isValidGrid sol = true) (r c : Fin 6) :
    hasNextLogicalMove (setCell sol r c none) = true := by
  obtain ⟨v₀, hv₀⟩ := Option.isSome_iff_exists.1 (hfull r c)
  rw [hasNextLogicalMove, List.any_eq_true]
  refine ⟨(r, c), mem_allCells (r, c), ?_⟩
  rw [hnCandidates_single_removal hfull hir hval r c hv₀]
  rfl

theorem filledCellCount_eq_card (g : Grid) :
    filledCellCount g =
      (Finset.univ.filter fun p : Fin 6 × Fin 6 => (g p.1 p.2).isSome).card := by
  rw [filledCellCount]
  rw [← List.toFinset_card_of_nodup (allCells_nodup.filter _)]
  have huniv : allCells.toFinset = (Finset.univ : Finset (Fin 6 × Fin 6)) := by
    apply Finset.ext
    intro p
    simp [mem_allCells p]
  rw [List.toFinset_filter, huniv]

theorem filledCellCount_add_emptyCount (g : Grid) :
    filledCellCount g + emptyCount g = 36 := by
  rw [filledCellCount_eq_card, emptyCount]
  have hco : ∀ p : Fin 6 × Fin 6, g p.1 p.2 = none ↔ ¬((g p.1 p.2).isSome = true) := by
    intro p
    cases g p.1 p.2 <;> simp
  rw [Finset.filter_congr fun p _ => hco p]
  rw [Finset.filter_card_add_filter_neg_card_eq_card]
  decide

theorem emptyCount_single_removal {sol : Grid} (hfull : FullGrid sol)
    (r c : Fin 6) : emptyCount (setCell sol r c none) = 1 := by
  rw [emptyCount]
  have : (Finset.univ.filter
      fun p : Fin 6 × Fin 6 => setCell sol r c none p.1 p.2 = none) = {(r, c)} := by
    apply Finset.ext
    intro p
    simp only [Finset.mem_filter, Finset.mem_univ, true_and, Finset.mem_singleton]
    constructor
    · intro hp
      by_cases he : p.1 = r ∧ p.2 = c
      · exact Prod.ext he.1 he.2
      · rw [setCell_ne _ _ _ _ he] at hp
        have := hfull p.1 p.2
        rw [hp] at this
        cases this
    · rintro rfl
      exact setCell_same ..
  rw [this]
  rfl

theorem filledCellCount_single_removal {sol : Grid} (hfull : FullGrid sol)
    (r c : Fin 6) : filledCellCount (setCell sol r c none) = 35 := by
  have h1 := filledCellCount_add_emptyCount (setCell sol r c none)
  rw [emptyCount_single_removal hfull r c] at h1
  omega

theorem guidedStep_none {sol : Grid} {minClues : Nat} {st : CarveState}
    {p : Fin 6 × Fin 6} (hc : st.puzzle p.1 p.2 = none) :
    guidedStep sol minClues st p = st := by
  unfold guidedStep
  rw [hc]

theorem guidedStep_some_keep {sol : Grid} {minClues : Nat} {st : CarveState}
    {p : Fin 6 × Fin 6} {orig : Nat} (hc : st.puzzle p.1 p.2 = some orig)
    (hcond : (hasUniqueSolution (setCell st.puzzle p.1 p.2 none) sol &&
      hasNextLogicalMove (setCell st.puzzle p.1 p.2 none) &&
      decide (minClues ≤ filledCellCount (setCell st.puzzle p.1 p.2 none))) = true) :
    guidedStep sol minClues st p =
      ⟨setCell st.puzzle p.1 p.2 none, st.removed + 1, 0⟩ := by
  unfold guidedStep
  rw [hc]
  simp only [hcond, if_true]

theorem guidedStep_some_fail {sol : Grid} {minClues : Nat} {st : CarveState}
    {p : Fin 6 × Fin 6} {orig : Nat} (hc : st.puzzle p.1 p.2 = some orig)
    (hcond : ¬((hasUniqueSolution (setCell st.puzzle p.1 p.2 none) sol &&
      hasNextLogicalMove (setCell st.puzzle p.1 p.2 none) &&
      decide (minClues ≤ filledCellCount (setCell st.puzzle p.1 p.2 none))) = true)) :
    guidedStep sol minClues st p =
      ⟨setCell (setCell st.puzzle p.1 p.2 none) p.1 p.2 (some orig),
        st.removed, st.fails + 1⟩ := by
  unfold guidedStep
  rw [hc]
  simp only [if_neg hcond]

theorem guidedStep_inv {sol : Grid} {minClues : Nat} {st : CarveState}
    (hp : ExtendsG st.puzzle sol)
    (hu : hasUniqueSolution st.puzzle sol = true)
    (hl : hasNextLogicalMove st.puzzle = true) (p : Fin 6 × Fin 6) :
    ExtendsG (guidedStep sol minClues st p).puzzle sol ∧
    hasUniqueSolution (guidedStep sol minClues st p).puzzle sol = true ∧
    hasNextLogicalMove (guidedStep sol minClues st p).puzzle = true := by
  cases hc : st.puzzle p.1 p.2 with
  | none =>
    rw [guidedStep_none hc]
    exact ⟨hp, hu, hl⟩
  | some orig =>
    by_cases hcond : (hasUniqueSolution (setCell st.puzzle p.1 p.2 none) sol &&
        hasNextLogicalMove (setCell st.puzzle p.1 p.2 none) &&
        decide (minClues ≤ filledCellCount (setCell st.puzzle p.1 p.2 none))) = true
    · rw [guidedStep_some_keep hc hcond]
      simp only [Bool.and_eq_true] at hcond
      exact ⟨extendsG_trans extendsG_setCell_none hp, hcond.1.1, hcond.1.2⟩
    · rw [guidedStep_some_fail hc hcond]
      simp only
      rw [setCell_setCell_cancel hc]
      exact ⟨hp, hu, hl⟩

theorem guidedInner_inv {sol : Grid} {target minClues : Nat} :
    ∀ (ps : List (Fin 6 × Fin 6)) (st : CarveState),
    ExtendsG st.puzzle sol →
    hasUniqueSolution st.puzzle sol = true →
    hasNextLogicalMove st.puzzle = true →
    ExtendsG (guidedInner sol target minClues st ps).puzzle sol ∧
    hasUniqueSolution (guidedInner sol target minClues st ps).puzzle sol = true ∧
    hasNextLogicalMove (guidedInner sol target minClues st ps).puzzle = true := by
  intro ps
  induction ps with
  | nil =>
    intro st hp hu hl
    exact ⟨hp, hu, hl⟩
  | cons p rest ih =>
    intro st hp hu hl
    rw [guidedInner]
    by_cases h1 : target ≤ st.removed
    · rw [if_pos h1]
      exact ⟨hp, hu, hl⟩
    · rw [if_neg h1]
      by_cases h2 : 10 ≤ st.fails
      · rw [if_pos h2]
        exact ⟨hp, hu, hl⟩
      · rw [if_neg h2]
        obtain ⟨hp', hu', hl'⟩ := guidedStep_inv hp hu hl p
        exact ih _ hp' hu' hl'

theorem guidedPasses_inv {sol : Grid} {target minClues : Nat} {rnd : Rnd} :
    ∀ (n : Nat) (st : CarveState) (k : Nat),
    ExtendsG st.puzzle sol →
    hasUniqueSolution st.puzzle sol = true →
    hasNextLogicalMove st.puzzle = true →
    ExtendsG (guidedPasses sol target minClues rnd n st k).1.puzzle sol ∧
    hasUniqueSolution (guidedPasses sol target minClues rnd n st k).1.puzzle sol = true ∧
    hasNextLogicalMove (guidedPasses sol target minClues rnd n st k).1.puzzle = true := by
  intro n
  induction n with
  | zero =>
    intro st k hp hu hl
    exact ⟨hp, hu, hl⟩
  | succ m ih =>
    intro st k hp hu hl
    rw [guidedPasses]
    by_cases h1 : target ≤ st.removed
    · rw [if_pos h1]
      exact ⟨hp, hu, hl⟩
    · rw [if_neg h1]
      simp only
      obtain ⟨hp', hu', hl'⟩ := guidedInner_inv
        (shuffleArray allCells rnd k).1 st hp hu hl
      exact ih _ _ hp' hu' hl'

theorem guidedStep_establish {sol : Grid} {minClues : Nat}
    (hfull : FullGrid sol) (hir : InRange sol) (hval : isValidGrid sol = true)
    (hmin : minClues ≤ 35) (p : Fin 6 × Fin 6) :
    ExtendsG (guidedStep sol minClues ⟨sol, 0, 0⟩ p).puzzle sol ∧
    hasUniqueSolution (guidedStep sol minClues ⟨sol, 0, 0⟩ p).puzzle sol = true ∧
    hasNextLogicalMove (guidedStep sol minClues ⟨sol, 0, 0⟩ p).puzzle = true := by
  obtain ⟨orig, horig⟩ := Option.isSome_iff_exists.1 (hfull p.1 p.2)
  have hcond : (hasUniqueSolution (setCell sol p.1 p.2 none) sol &&
      hasNextLogicalMove (setCell sol p.1 p.2 none) &&
      decide (minClues ≤ filledCellCount (setCell sol p.1 p.2 none))) = true := by
    rw [hasUniqueSolution_single_removal hfull hir hval p.1 p.2,
      hasNextLogicalMove_single_removal hfull hir hval p.1 p.2,
      filledCellCount_single_removal hfull p.1 p.2]
    simp only [Bool.and_true, Bool.true_and, decide_eq_true_eq]
    omega
  rw [guidedStep_some_keep horig hcond]
  simp only [Bool.and_eq_true] at hcond
  exact ⟨extendsG_setCell_none, hcond.1.1, hcond.1.2⟩

theorem createGuidedPuzzle_spec {sol : Grid} (hfull : FullGrid sol)
    (hir : InRange sol) (hval : isValidGrid sol = true) (d : Difficulty)
    (rnd : Rnd) (k : Nat) :
    ∃ (P : Grid) (k' : Nat),
      createGuidedPuzzle sol d rnd k = (some P, k') ∧
      ExtendsG P sol ∧ hasUniqueSolution P sol = true ∧
      hasNextLogicalMove P = true := by
  have htarget : 0 < getCellsToRemove d := by
    cases d <;> simp [getCellsToRemove]
  have hmin : getMinimumClues d ≤ 35 := by
    cases d <;> simp [getMinimumClues]
  rw [createGuidedPuzzle]
  rw [guidedPasses]
  rw [if_neg (Nat.not_le.2 htarget)]
  simp only
  rcases hsh : shuffleArray allCells rnd k with ⟨ps, k₁⟩
  have hps : ps ≠ [] := by
    have hperm : ps.Perm allCells := by
      have := shuffleArray_perm allCells rnd k
      rw [hsh] at this
      exact this
    intro hnil
    have hpl := hperm.length_eq
    have hlen : allCells.length = 36 := by decide
    rw [hnil, hlen] at hpl
    simp at hpl
  obtain ⟨p, prest, rfl⟩ := List.exists_cons_of_ne_nil hps
  rw [guidedInner]
  rw [if_neg (Nat.not_le.2 htarget)]
  rw [if_neg (by omega : ¬(10 : Nat) ≤ 0)]
  obtain ⟨hp1, hu1, hl1⟩ := guidedStep_establish hfull hir hval hmin p
  obtain ⟨hp2, hu2, hl2⟩ := guidedInner_inv prest _ hp1 hu1 hl1
  rcases hpass : guidedPasses sol (getCellsToRemove d) (getMinimumClues d) rnd 2
    (guidedInner sol (getCellsToRemove d) (getMinimumClues d)
      (guidedStep sol (getMinimumClues d) ⟨sol, 0, 0⟩ p) prest) k₁ with ⟨st, kf⟩
  have hinv := @guidedPasses_inv sol (getCellsToRemove d)
    (getMinimumClues d) rnd 2
    (guidedInner sol (getCellsToRemove d) (getMinimumClues d)
      (guidedStep sol (getMinimumClues d) ⟨sol, 0, 0⟩ p) prest) k₁ hp2 hu2 hl2
  rw [hpass] at hinv
  obtain ⟨hp3, hu3, hl3⟩ := hinv
  refine ⟨st.puzzle, kf, ?_, hp3, hu3, hl3⟩
  simp only
  rw [if_pos hl3]

/-- C1: for every difficulty and every sequence of random choices,
generatePuzzle returns a pair whose puzzle has exactly one completion,
that completion is the returned solution, and the solution satisfies
isValidGrid.  The fallback path never executes (the first guided attempt
always succeeds), so the guarantee holds for every return of the
function. -/
theorem claim_C1 (d : Difficulty) (rnd : Rnd) (k : Nat) :
    Completion (generatePuzzle d rnd k).1.1 (generatePuzzle d rnd k).1.2 ∧
    (∀ s, Completion (generatePuzzle d rnd k).1.1 s →
      s = (generatePuzzle d rnd k).1.2) ∧
    isValidGrid (generatePuzzle d rnd k).1.2 = true := by
  rcases hgen : generateCompleteSolution rnd k with ⟨sol, k₁⟩
  have hcomp0 := generateCompleteSolution_spec rnd k
  rw [hgen] at hcomp0
  obtain ⟨hfull, hir, hval, -⟩ := hcomp0
  obtain ⟨P, k₂, hcg, hpext, hpu, hpl⟩ :=
    createGuidedPuzzle_spec hfull hir hval d rnd k₁
  have hres : generatePuzzle d rnd k = ((P, sol), k₂) := by
    rw [generatePuzzle]
    have h15 : (15 : Nat) = 14 + 1 := rfl
    rw [h15, generatePuzzleLoop]
    rw [hgen]
    simp only
    rw [hcg]
    simp only
    rw [hpu, hpl]
    rfl
  rw [hres]
  simp only
  have hpval : isValidGrid P = true := isValidGrid_of_extends hpext hval
  have hpir : InRange P := inRange_of_extends hpext hir
  obtain ⟨hc, huniq⟩ := (hasUniqueSolution_iff hpval hpir).1 hpu
  exact ⟨⟨hfull, hir, hval, hpext⟩, huniq, hval⟩

/-- C3 (counterexample): the claim as stated fails on the all-ones grid.
hasUniqueSolution(allOnes, allOnes) returns true — the solver never
re-validates pre-filled cells, so a fully filled grid is reported as its
own unique solution — yet allOnes has no completion into a full valid
grid at all, because it is not a valid grid. -/
theorem claim_C3_counterexample :
    hasUniqueSolution allOnes allOnes = true ∧
      ¬(Completion allOnes allOnes ∧
        ∀ s, Completion allOnes s → s = allOnes) := by
  constructor
  · decide
  · rintro ⟨⟨-, -, hval, -⟩, -⟩
    exact absurd hval (by decide)

/-- C3 (amended): restricted to puzzles that are themselves valid partial
grids — filled cells within 1..6, no duplicate in any row, column or box —
hasUniqueSolution(puzzle, expectedSolution) returns true iff the puzzle
has exactly one completion into a full valid grid and that completion is
expectedSolution. -/
theorem claim_C3 (p e : Grid) (hval : isValidGrid p = true)
    (hir : InRange p) :
    hasUniqueSolution p e = true ↔
      (Completion p e ∧ ∀ s, Completion p s → s = e) :=
  hasUniqueSolution_iff hval hir

set_option maxHeartbeats 1600000 in
/-- Witness for claim_C3 at the concrete puzzle gridP0 with expected
solution gridS0. -/
theorem claim_C3_witness :
    (isValidGrid gridP0 = true ∧ InRange gridP0) ∧
      (hasUniqueSolution gridP0 gridS0 = true ↔
        (Completion gridP0 gridS0 ∧ ∀ s, Completion gridP0 s → s = gridS0)) :=
  ⟨⟨by decide, by decide⟩, claim_C3 gridP0 gridS0 (by decide) (by decide)⟩

/-- C4: analyzeBoard computes isValid as isValidGrid together with an
empty error list, and isSolvable as isValid together with either an
available move or an already solved grid. -/
theorem claim_C4 (g : Grid) :
    ((analyzeBoard g).isValid = true ↔
      (isValidGrid g = true ∧ (analyzeBoard g).errors = [])) ∧
    ((analyzeBoard g).isSolvable = true ↔
      ((analyzeBoard g).isValid = true ∧
        ((analyzeBoard g).availableMoves ≠ [] ∨ isSolved g = true))) := by
  have hlen : ∀ (l : List ErrorLocation), (l.length == 0) = decide (l = []) := by
    intro l
    cases l <;> simp
  have hmov : ∀ (l : List HintMove), decide (l.length > 0) = decide (l ≠ []) := by
    intro l
    cases l <;> simp
  have hvalid_def : (analyzeBoard g).isValid =
      (isValidGrid g && (detectErrors g (calculateAllCandidates g)).length == 0) := rfl
  have herr_def : (analyzeBoard g).errors =
      detectErrors g (calculateAllCandidates g) := rfl
  have hmov_def : (analyzeBoard g).availableMoves =
      findAllAvailableMoves g (calculateAllCandidates g) := rfl
  have hsolv_def : (analyzeBoard g).isSolvable =
      ((analyzeBoard g).isValid &&
        (decide ((analyzeBoard g).availableMoves.length > 0) || isSolved g)) := rfl
  constructor
  · rw [hvalid_def, herr_def, Bool.and_eq_true, hlen]
    simp only [decide_eq_true_eq]
  · rw [hsolv_def, hmov_def, hmov, Bool.and_eq_true, Bool.or_eq_true,
      decide_eq_true_eq, hvalid_def]

/-- C6: for an empty cell, calculateCellCandidates is exactly {1..6} minus
the values filled in the cell's row, column and 3×2 box. -/
theorem claim_C6 (g : Grid) (r c : Fin 6) (h : g r c = none) (v : Nat) :
    v ∈ calculateCellCandidates g r c ↔
      (v ∈ ({1, 2, 3, 4, 5, 6} : Finset Nat) ∧
       (∀ c', g r c' ≠ some v) ∧
       (∀ r', g r' c ≠ some v) ∧
       (∀ r' c', boxIdx r' c' = boxIdx r c → g r' c' ≠ some v)) := by
  rw [calculateCellCandidates, if_neg (by simp [h])]
  simp only [Finset.mem_sdiff, Finset.mem_union, List.mem_toFinset,
    mem_filterMap_rowCells, mem_filterMap_colCells, mem_filterMap_boxCells]
  constructor
  · rintro ⟨h16, hno⟩
    refine ⟨h16, ?_, ?_, ?_⟩
    · intro c' hc'
      exact hno (Or.inl (Or.inl ⟨c', hc'⟩))
    · intro r' hr'
      exact hno (Or.inl (Or.inr ⟨r', hr'⟩))
    · intro r' c' hb hv
      exact hno (Or.inr ⟨r', c', hb, hv⟩)
  · rintro ⟨h16, hrow, hcol, hbox⟩
    refine ⟨h16, ?_⟩
    rintro ((⟨c', hc'⟩ | ⟨r', hr'⟩) | ⟨r', c', hb, hv⟩)
    · exact hrow c' hc'
    · exact hcol r' hr'
    · exact hbox r' c' hb hv

/-- Witness for claim_C6 at gridP0 and its empty cell (0,0) with value 1. -/
theorem claim_C6_witness :
    gridP0 0 0 = none ∧
      (1 ∈ calculateCellCandidates gridP0 0 0 ↔
        (1 ∈ ({1, 2, 3, 4, 5, 6} : Finset Nat) ∧
         (∀ c', gridP0 0 c' ≠ some 1) ∧
         (∀ r', gridP0 r' 0 ≠ some 1) ∧
         (∀ r' c', boxIdx r' c' = boxIdx 0 0 → gridP0 r' c' ≠ some 1))) :=
  ⟨by decide, claim_C6 gridP0 0 0 (by decide) 1⟩

set_option maxHeartbeats 3200000 in
/-- C5 evaluated at its failing input: gridP0 is exactly the Scenario C
shape (valid, one empty cell at (0,0) whose peers hold the other five
values, candidate set {1}, and the naked-single scan does find (0,0,1)),
yet findNextMove returns null, because detectErrors flags every filled
cell — calculateAllCandidates stores an empty set for filled cells and
findCellsWithNoCandidates never consults the grid — so analyzeBoard
reports 35 errors and the hint is suppressed. -/
theorem claim_C5_bug :
    isValidGrid gridP0 = true ∧
    gridP0 0 0 = none ∧
    (∀ p : Fin 6 × Fin 6, p ≠ (0, 0) → (gridP0 p.1 p.2).isSome) ∧
    calculateCellCandidates gridP0 0 0 = {1} ∧
    ccFindNakedSingles (calculateAllCandidates gridP0) =
      [(0, 0, 1)] ∧
    (analyzeBoard gridP0).errors.length = 35 ∧
    findNextMove gridP0 = none := by
  refine ⟨by decide, by decide, by decide, by decide, by decide, ?_, ?_⟩
  · decide
  · decide

set_option maxHeartbeats 3200000 in
/-- C8 evaluated at its failing input: gridE8 is valid, its only
zero-candidate empty cell is (0,5), and no filled cell violates a unit
constraint, yet detectErrors returns 7 no_solution errors — one for the
empty cell (0,5) as the claim expects, plus one for each of the 6 filled
cells, which calculateAllCandidates stores with an empty candidate set. -/
theorem claim_C8_bug :
    isValidGrid gridE8 = true ∧
    (allCells.filter fun p =>
      decide (gridE8 p.1 p.2 = none) &&
      decide (calculateAllCandidates gridE8 p.1 p.2 = ∅)) = [(0, 5)] ∧
    ((detectErrors gridE8 (calculateAllCandidates gridE8)).map
      (fun e => (e.row, e.col, e.type))) =
      [(0, 0, ErrType.noSolution), (0, 1, ErrType.noSolution),
       (0, 2, ErrType.noSolution), (0, 3, ErrType.noSolution),
       (0, 4, ErrType.noSolution), (0, 5, ErrType.noSolution),
       (1, 5, ErrType.noSolution)] ∧
    (detectErrors gridE8 (calculateAllCandidates gridE8)).length ≠ 1 := by
  refine ⟨by decide, by decide, ?_, by decide⟩
  decide

theorem Heap.read_write_ne {α : Type} [Inhabited α] (h : Heap α) (i j : Nat)
    (a : α) (hne : i ≠ j) : (h.write i a).read j = h.read j := by
  simp [Heap.read, Heap.write, List.getD_eq_getElem?_getD, List.getElem?_set,
    hne]

theorem Heap.read_write_same {α : Type} [Inhabited α] (h : Heap α) (i : Nat)
    (a : α) (hi : i < h.data.length) : (h.write i a).read i = a := by
  simp [Heap.read, Heap.write, List.getD_eq_getElem?_getD, List.getElem?_set,
    hi]

theorem Heap.read_alloc_fresh {α : Type} [Inhabited α] (h : Heap α) (a : α) :
    ((h.alloc a).1).read (h.alloc a).2 = a := by
  simp [Heap.read, Heap.alloc, List.getD_eq_getElem?_getD,
    List.getElem?_concat_length]

theorem Heap.read_alloc_old {α : Type} [Inhabited α] (h : Heap α) (a : α)
    (i : Nat) (hi : i < h.data.length) : ((h.alloc a).1).read i = h.read i := by
  simp [Heap.read, Heap.alloc, List.getD_eq_getElem?_getD,
    List.getElem?_append, hi]

/-- C9: isValidMove never mutates the caller's grid — after the call the
heap entry behind the caller's reference is unchanged (the value is placed
on a freshly allocated copy only), and the returned boolean agrees with
the pure embedding of the function. -/
theorem claim_C9 (h : Heap Grid) (gref : Nat) (r c : Fin 6) (v : Nat)
    (href : gref < h.data.length) :
    (isValidMoveCall h gref r c v).2.read gref = h.read gref ∧
    (isValidMoveCall h gref r c v).1 = isValidMove (h.read gref) r c v := by
  rw [isValidMoveCall, isValidMove]
  by_cases hv : (v < 1 || 6 < v) = true
  · rw [if_pos hv, if_pos hv]
    exact ⟨rfl, rfl⟩
  · rw [if_neg hv, if_neg hv]
    simp only
    have htne : (h.alloc (h.read gref)).2 ≠ gref := by
      show h.data.length ≠ gref
      omega
    have hfresh : ((h.alloc (h.read gref)).1).read (h.alloc (h.read gref)).2 =
        h.read gref := Heap.read_alloc_fresh h (h.read gref)
    have htlt : (h.alloc (h.read gref)).2 < ((h.alloc (h.read gref)).1).data.length := by
      show h.data.length < (h.data ++ [h.read gref]).length
      simp
    constructor
    · rw [Heap.read_write_ne _ _ _ _ htne]
      exact Heap.read_alloc_old h (h.read gref) gref href
    · rw [Heap.read_write_same _ _ _ htlt, hfresh]

/-- Witness for claim_C9 on a one-grid heap. -/
theorem claim_C9_witness :
    0 < (Heap.mk [gridS0] : Heap Grid).data.length ∧
    ((isValidMoveCall (Heap.mk [gridS0]) 0 0 0 1).2.read 0 =
        (Heap.mk [gridS0] : Heap Grid).read 0 ∧
      (isValidMoveCall (Heap.mk [gridS0]) 0 0 0 1).1 =
        isValidMove ((Heap.mk [gridS0] : Heap Grid).read 0) 0 0 1) :=
  ⟨by decide, claim_C9 (Heap.mk [gridS0]) 0 0 0 1 (by decide)⟩

theorem updateCandidatesAfterMove_clear_same (g : Grid) (cand : CandGrid)
    {mv : PlayerMove} (hclear : mv.value = none) :
    updateCandidatesAfterMove g cand mv mv.row mv.col =
      calculateCellCandidates g mv.row mv.col := by
  rw [updateCandidatesAfterMove]
  simp only [hclear]
  simp

theorem updateCandidatesAfterMove_clear_other (g : Grid) (cand : CandGrid)
    {mv : PlayerMove} (hclear : mv.value = none) {r c : Fin 6}
    (hne : ¬(r = mv.row ∧ c = mv.col)) :
    updateCandidatesAfterMove g cand mv r c = cand r c := by
  rw [updateCandidatesAfterMove]
  simp only [hclear]
  simp [hne]

/-- C7: for a clearing move, updateCandidatesAfterMove recomputes only the
cleared cell on a fresh copy: the caller's map is unmodified, the returned
map holds calculateCellCandidates at the cleared cell, and every other
cell of the returned map equals the input map. -/
theorem claim_C7 (h : Heap CandGrid) (cref : Nat) (g : Grid)
    (mv : PlayerMove) (href : cref < h.data.length)
    (hclear : mv.value = none) :
    ((updateCandidatesAfterMoveCall h cref g mv).2.read cref = h.read cref) ∧
    (((updateCandidatesAfterMoveCall h cref g mv).2.read
        (updateCandidatesAfterMoveCall h cref g mv).1) mv.row mv.col =
      calculateCellCandidates g mv.row mv.col) ∧
    (∀ r c : Fin 6, ¬(r = mv.row ∧ c = mv.col) →
      ((updateCandidatesAfterMoveCall h cref g mv).2.read
        (updateCandidatesAfterMoveCall h cref g mv).1) r c =
        (h.read cref) r c) := by
  rw [updateCandidatesAfterMoveCall]
  simp only
  have hnne : (h.alloc (h.read cref)).2 ≠ cref := by
    show h.data.length ≠ cref
    omega
  have hfresh : ((h.alloc (h.read cref)).1).read (h.alloc (h.read cref)).2 =
      h.read cref := Heap.read_alloc_fresh h (h.read cref)
  have hnlt : (h.alloc (h.read cref)).2 <
      ((h.alloc (h.read cref)).1).data.length := by
    show h.data.length < (h.data ++ [h.read cref]).length
    simp
  refine ⟨?_, ?_, ?_⟩
  · rw [Heap.read_write_ne _ _ _ _ hnne]
    exact Heap.read_alloc_old h (h.read cref) cref href
  · rw [Heap.read_write_same _ _ _ hnlt, hfresh]
    exact updateCandidatesAfterMove_clear_same g (h.read cref) hclear
  · intro r c hne
    rw [Heap.read_write_same _ _ _ hnlt, hfresh]
    exact updateCandidatesAfterMove_clear_other g (h.read cref) hclear hne

/-- Witness for claim_C7 on a one-map heap and the clearing move at (0,0). -/
theorem claim_C7_witness :
    (0 < (Heap.mk [calculateAllCandidates gridP0] : Heap CandGrid).data.length ∧
      (PlayerMove.mk 0 0 none none).value = none) ∧
    (((updateCandidatesAfterMoveCall (Heap.mk [calculateAllCandidates gridP0])
          0 gridP0 (PlayerMove.mk 0 0 none none)).2.read 0 =
        (Heap.mk [calculateAllCandidates gridP0] : Heap CandGrid).read 0) ∧
      (((updateCandidatesAfterMoveCall (Heap.mk [calculateAllCandidates gridP0])
          0 gridP0 (PlayerMove.mk 0 0 none none)).2.read
          (updateCandidatesAfterMoveCall (Heap.mk [calculateAllCandidates gridP0])
            0 gridP0 (PlayerMove.mk 0 0 none none)).1)
          (PlayerMove.mk 0 0 none none).row (PlayerMove.mk 0 0 none none).col =
        calculateCellCandidates gridP0 (PlayerMove.mk 0 0 none none).row
          (PlayerMove.mk 0 0 none none).col) ∧
      (∀ r c : Fin 6,
        ¬(r = (PlayerMove.mk 0 0 none none).row ∧
          c = (PlayerMove.mk 0 0 none none).col) →
        ((updateCandidatesAfterMoveCall (Heap.mk [calculateAllCandidates gridP0])
            0 gridP0 (PlayerMove.mk 0 0 none none)).2.read
          (updateCandidatesAfterMoveCall (Heap.mk [calculateAllCandidates gridP0])
            0 gridP0 (PlayerMove.mk 0 0 none none)).1) r c =
          ((Heap.mk [calculateAllCandidates gridP0] : Heap CandGrid).read 0) r c)) :=
  ⟨⟨by decide, rfl⟩,
    claim_C7 (Heap.mk [calculateAllCandidates gridP0]) 0 gridP0
      (PlayerMove.mk 0 0 none none) (by decide) rfl⟩

theorem concat_trim_last {α : Type} (l : List α) (e : α) :
    ((if maxHistorySize < (l ++ [e]).length
      then (l ++ [e]).drop ((l ++ [e]).length - maxHistorySize)
      else (l ++ [e]))[
      (if maxHistorySize < (l ++ [e]).length
      then (l ++ [e]).drop ((l ++ [e]).length - maxHistorySize)
      else (l ++ [e])).length - 1]? = some e) ∧
    0 < (if maxHistorySize < (l ++ [e]).length
      then (l ++ [e]).drop ((l ++ [e]).length - maxHistorySize)
      else (l ++ [e])).length := by
  have hlen : (l ++ [e]).length = l.length + 1 := by simp
  by_cases hc : maxHistorySize < (l ++ [e]).length
  · rw [if_pos hc]
    have hdlen : ((l ++ [e]).drop ((l ++ [e]).length - maxHistorySize)).length =
        maxHistorySize := by
      rw [List.length_drop]
      omega
    rw [hdlen]
    constructor
    · rw [List.getElem?_drop]
      have harith : (l ++ [e]).length - maxHistorySize + (maxHistorySize - 1) =
          l.length := by
        rw [hlen]
        have : (0 : Nat) < maxHistorySize := by decide
        omega
      rw [harith]
      exact List.getElem?_concat_length l e
    · decide
  · rw [if_neg hc]
    constructor
    · rw [hlen]
      simp only [Nat.add_sub_cancel]
      exact List.getElem?_concat_length l e
    · rw [hlen]
      omega

theorem addMove_spec (h : Heap Grid) (st : MoveHistoryState) (mv : PlayerMove)
    (gref : Nat) (b : Bool) (tech : Option SolvingTechnique) (now : Nat) :
    (addMove h st mv gref b tech now).1 = (h.alloc (h.read gref)).1 ∧
    0 < (addMove h st mv gref b tech now).2.history.length ∧
    (addMove h st mv gref b tech now).2.history[
      (addMove h st mv gref b tech now).2.history.length - 1]? =
      some ⟨mv, now, (h.alloc (h.read gref)).2, b, tech⟩ := by
  refine ⟨rfl, ?_, ?_⟩
  · exact (concat_trim_last st.history
      (⟨mv, now, (h.alloc (h.read gref)).2, b, tech⟩ : MoveHistoryEntry)).2
  · exact (concat_trim_last st.history
      (⟨mv, now, (h.alloc (h.read gref)).2, b, tech⟩ : MoveHistoryEntry)).1

/-- C10: addMove stores a deep copy of the pre-move grid: after the call,
overwriting the caller's grid object does not change the recorded
boardStateBefore, so both getBoardStateAtIndex at the new entry and
getLastMove still see the grid exactly as it was when the move was
recorded. -/
theorem claim_C10 (h : Heap Grid) (st : MoveHistoryState) (mv : PlayerMove)
    (gref : Nat) (wasHintUsed : Bool) (tech : Option SolvingTechnique)
    (now : Nat) (g' : Grid) (href : gref < h.data.length) :
    getBoardStateAtIndex
        ((addMove h st mv gref wasHintUsed tech now).1.write gref g')
        (addMove h st mv gref wasHintUsed tech now).2
        ((addMove h st mv gref wasHintUsed tech now).2.history.length - 1) =
      some (h.read gref) ∧
    ((getLastMove (addMove h st mv gref wasHintUsed tech now).2).map
      (fun e =>
        ((addMove h st mv gref wasHintUsed tech now).1.write gref g').read
          e.boardStateBefore)) = some (h.read gref) := by
  obtain ⟨h1, hpos, hlast⟩ := addMove_spec h st mv gref wasHintUsed tech now
  have hne : gref ≠ (h.alloc (h.read gref)).2 := Nat.ne_of_lt href
  have hread : (((h.alloc (h.read gref)).1).write gref g').read
      ((h.alloc (h.read gref)).2) = h.read gref := by
    rw [Heap.read_write_ne _ _ _ _ hne]
    exact Heap.read_alloc_fresh h (h.read gref)
  constructor
  · rw [getBoardStateAtIndex, hlast]
    exact congrArg some hread
  · rw [getLastMove, if_pos hpos, hlast]
    exact congrArg some hread

/-- C10 witness: the deep-copy property evaluated on a concrete call: a
heap holding one grid (gridS0), an empty history, a move at (0,0), and a
subsequent overwrite of the caller's grid with emptyGrid. -/
theorem claim_C10_witness :
    (0 : Nat) < (Heap.mk [gridS0] : Heap Grid).data.length ∧
    (getBoardStateAtIndex
        ((addMove (Heap.mk [gridS0]) ⟨[]⟩ ⟨0, 0, some 2, none⟩ 0 false none
            5).1.write 0 emptyGrid)
        (addMove (Heap.mk [gridS0]) ⟨[]⟩ ⟨0, 0, some 2, none⟩ 0 false none
            5).2
        ((addMove (Heap.mk [gridS0]) ⟨[]⟩ ⟨0, 0, some 2, none⟩ 0 false none
            5).2.history.length - 1) =
      some ((Heap.mk [gridS0] : Heap Grid).read 0) ∧
    ((getLastMove
        (addMove (Heap.mk [gridS0]) ⟨[]⟩ ⟨0, 0, some 2, none⟩ 0 false none
            5).2).map
      (fun e =>
        ((addMove (Heap.mk [gridS0]) ⟨[]⟩ ⟨0, 0, some 2, none⟩ 0 false none
            5).1.write 0 emptyGrid).read e.boardStateBefore)) =
      some ((Heap.mk [gridS0] : Heap Grid).read 0)) :=
  ⟨by decide,
   claim_C10 (Heap.mk [gridS0]) ⟨[]⟩ ⟨0, 0, some 2, none⟩ 0 false none 5
     emptyGrid (by decide)⟩
